import Mathlib

/-!
Verification development for the parsec client-side storage core.

The Python sources under `parsec/core/file.py` and `parsec/crypto.py` are
shallowly embedded below.  Byte strings are modelled as `List Nat`,
Python dicts as insertion-ordered association lists, and the effectful
file engine as explicit state passing over a backend model.  The
synchronizer and the low-level cipher core are not part of the sources
and are modelled from the specification where needed; every such
definition is marked in its doc comment.
-/

set_option maxRecDepth 10000
set_option maxHeartbeats 4000000

/-- Byte strings are lists of naturals (Python `bytes`). -/
abbrev Bytes := List Nat

/-- Python slice `s[k:]` where `k` may be negative: a negative start counts
from the end of the string and clamps at zero. -/
def pySuffixFrom (s : Bytes) (k : Int) : Bytes :=
  if k < 0 then s.drop (s.length - (-k).toNat) else s.drop k.toNat

/-- Python dict assignment `d[k] = v`: update in place when the key exists,
append at the end otherwise (insertion order is preserved). -/
def setKey (l : List (Nat × Bytes)) (k : Nat) (v : Bytes) : List (Nat × Bytes) :=
  if l.any (fun p => p.1 = k) then l.map (fun p => if p.1 = k then (k, v) else p)
  else l ++ [(k, v)]

/-- `ContentBuilder` from `parsec/core/file.py`: a sparse map from offset to
pending cleartext bytes, kept as an insertion-ordered association list
exactly like a Python dict. -/
structure ContentBuilder where
  contents : List (Nat × Bytes)
deriving Repr, DecidableEq

/-- `ContentBuilder.write(data, offset)` from `parsec/core/file.py` lines
18-40.  The loop walks the dict entries in insertion order carrying the
mutable `offset`, `new_data` and `offsets_to_delete` of the source; note
that `end_offset` is computed once from the original offset and that the
merge branches read the original `data`. -/
def ContentBuilder.write (cb : ContentBuilder) (data : Bytes) (offset : Nat) :
    ContentBuilder :=
  let endOffset := offset + data.length
  let st := cb.contents.foldl
    (fun (acc : Nat × Bytes × List Nat) p =>
      let off := acc.1
      let nd := acc.2.1
      let dels := acc.2.2
      let co := p.1
      let cc := p.2
      if off ≥ co ∧ endOffset ≤ co + cc.length then
        -- insert inside
        (co, cc.take (off - co) ++ data ++ cc.drop (off - co + data.length), dels)
      else if off ≤ co ∧ endOffset ≥ co then
        -- insert before and merge
        (off, data ++ pySuffixFrom cc ((off : Int) + (data.length : Int) - (co : Int)),
          dels ++ [co])
      else if off = co + cc.length then
        -- insert after
        (co, cc.take off ++ nd, dels)
      else
        (off, nd, dels))
    (offset, data, [])
  let remaining := cb.contents.filter (fun p => ¬ p.1 ∈ st.2.2)
  ⟨setKey remaining st.1 st.2.1⟩

/-- `ContentBuilder.truncate(length)` from `parsec/core/file.py` lines 42-51:
drop every region starting after the cut, right-trim a region straddling
it. -/
def ContentBuilder.truncate (cb : ContentBuilder) (n : Nat) : ContentBuilder :=
  ⟨(cb.contents.map (fun p =>
      if p.1 > n then p
      else if p.1 + p.2.length > n then (p.1, p.2.take (n - p.1))
      else p)).filter (fun p => ¬ p.1 > n)⟩

/-- The no-overlap property claimed for the region map: any two regions at
distinct offsets are disjoint. -/
def regionsDisjoint (l : List (Nat × Bytes)) : Prop :=
  ∀ p ∈ l, ∀ q ∈ l, p.1 < q.1 → p.1 + p.2.length ≤ q.1

instance (l : List (Nat × Bytes)) : Decidable (regionsDisjoint l) := by
  unfold regionsDisjoint; infer_instance

/-- An empty builder, as produced by `ContentBuilder.__init__`. -/
def ContentBuilder.empty : ContentBuilder := ⟨[]⟩

/-! ## Symmetric crypto (`parsec/crypto.py`, class `AESKey`)

The wrapper code (IV handling and ciphertext framing) is embedded from the
source; the raw AES-GCM cipher of the `cryptography` library is not part
of the repository and is modelled from the specification. -/

/-- `AES.block_size` of the `cryptography` library: 128 bits, a constant of
the AES algorithm. -/
def aesBlockSizeBits : Nat := 128

/-- Modelled from the spec: the GCM cipher body from the `cryptography`
library (not under `src/`).  The spec only requires that the ciphertext
has the length of the plaintext and that decryption inverts encryption,
so the body is a keyed shift of each byte. -/
def gcmBody (key : Nat) (pt : Bytes) : Bytes := pt.map (fun b => b + key + 1)

/-- Modelled from the spec: inverse of `gcmBody`. -/
def gcmBodyInv (key : Nat) (ct : Bytes) : Bytes := ct.map (fun b => b - (key + 1))

/-- Modelled from the spec: the 16-byte GCM authentication tag produced by
`encryptor.finalize`, a function of key, IV and plaintext. -/
def gcmTag (key : Nat) (iv : Bytes) (pt : Bytes) : Bytes :=
  List.replicate 16 (key + iv.sum + pt.sum)

/-- Errors raised by the crypto layer: `InvalidTag` on GCM tag mismatch. -/
inductive CryptoErr where
  | invalidTag
deriving Repr, DecidableEq

/-- `AESKey.encrypt` from `parsec/crypto.py` lines 201-208: draw an IV of
`AES.block_size // 8` bytes (the caller of the model supplies the random
bytes), run GCM and return `iv + enc + tag`. -/
def aesEncrypt (key : Nat) (iv : Bytes) (pt : Bytes) : Bytes :=
  iv ++ gcmBody key pt ++ gcmTag key iv pt

/-- `AESKey.decrypt` from `parsec/crypto.py` lines 210-214: the IV is
`ciphertext[:AES.block_size // 8]`, the tag `ciphertext[-16:]`, the body
`ciphertext[16:-16]`; GCM finalization fails with `InvalidTag` when the
tag does not match. -/
def aesDecrypt (key : Nat) (c : Bytes) : Except CryptoErr Bytes :=
  let iv := c.take (aesBlockSizeBits / 8)
  let tag := c.drop (c.length - 16)
  let body := (c.drop 16).take (c.length - 16 - 16)
  let pt := gcmBodyInv key body
  if tag = gcmTag key iv pt then Except.ok pt else Except.error CryptoErr.invalidTag

/-! ## Backend and synchronizer model

The file engine talks to the backend through effect requests
(`EVlobCreate`, `EVlobRead`, ..., `EBlockDelete`) resolved by the
synchronizer, whose module is not part of the sources.  It is modelled
from the specification (sections 4.2, 4.3 and 4.5): a write-back cache
in which creates and updates are staged locally until `synchronize`,
reads consult the staged copy first, and `list` returns the locally
staged ids.  Serialization and payload encryption round-trip through
inverse bijections in the source, so vlob payloads are modelled in
decoded form and block ciphertext by its cleartext; the AES layer itself
is verified separately above. -/

/-- Block metadata embedded in a vlob payload: `{block, digest, size}`. -/
structure BlockMeta where
  block : Nat
  dgst : Bytes
  size : Nat
deriving Repr, DecidableEq

/-- A block group of a vlob payload: `{blocks, key}`. -/
structure BlockGroup where
  blocks : List BlockMeta
  key : Nat
deriving Repr, DecidableEq

/-- A decoded vlob payload: the JSON array of block groups, in file order. -/
abbrev Blob := List BlockGroup

/-- Modelled from the spec: SHA-256 of a cleartext chunk (`hashlib`, not
under `src/`).  The integrity checks only rely on the digest being a
function of the bytes, so it is modelled as the identity embedding. -/
def digest (b : Bytes) : Bytes := b

/-- Backend effect requests, recorded in issue order. -/
inductive Eff where
  | vlobCreate (blob : Blob)
  | vlobRead (id : Nat) (version : Option Nat)
  | vlobUpdate (id : Nat) (version : Nat) (blob : Blob)
  | vlobDelete (id : Nat)
  | vlobList
  | vlobSynchronize (id : Nat)
  | blockCreate (content : Bytes)
  | blockRead (id : Nat)
  | blockSynchronize (id : Nat)
  | blockDelete (id : Nat)
deriving Repr, DecidableEq

/-- Errors surfaced by the core. -/
inductive Err where
  | blockNotFound
  | vlobNotFound
  | versionConflict
  | handleMissing
  | integrityError
  | fileError (tag : String)
deriving Repr, DecidableEq

/-- A pending modification of a file (`File.modifications` entries). -/
inductive Modification where
  | write (data : Bytes) (offset : Nat)
  | truncate (n : Nat)
deriving Repr, DecidableEq

/-- An in-memory `File` handle (`parsec/core/file.py`, class `File`). -/
structure FileHandle where
  id : Nat
  readSeed : Nat
  writeSeed : Nat
  encryptor : Nat
  version : Nat
  dirty : Bool
  modifications : List Modification
deriving Repr, DecidableEq

/-- `File.get_version` from `parsec/core/file.py` lines 117-118. -/
def FileHandle.getVersion (h : FileHandle) : Nat :=
  if h.dirty then h.version + 1 else h.version

/-- Generic association-list update (Python dict assignment). -/
def assocSet {β : Type} (l : List (Nat × β)) (k : Nat) (v : β) : List (Nat × β) :=
  if l.any (fun p => p.1 = k) then l.map (fun p => if p.1 = k then (k, v) else p)
  else l ++ [(k, v)]

/-- Generic association-list deletion (Python `del d[k]`). -/
def assocErase {β : Type} (l : List (Nat × β)) (k : Nat) : List (Nat × β) :=
  l.filter (fun p => ¬ p.1 = k)

/-- The synchronizer-backed stores: durable vlob versions, the locally
staged vlob update per id, durable and locally staged blocks, and a
counter issuing fresh ids and keys. -/
structure Backend where
  vlobsDur : List (Nat × List Blob)
  vlobsStaged : List (Nat × (Nat × Blob))
  blocksDur : List (Nat × Bytes)
  blocksStaged : List (Nat × Bytes)
  nextId : Nat
deriving Repr, DecidableEq

/-- The whole client state: backend stores, the process-wide `File.files`
registry, and the trace of issued effect requests. -/
structure Sys where
  backend : Backend
  files : List (Nat × FileHandle)
  trace : List Eff
deriving Repr, DecidableEq

/-- State-passing computations over `Sys` that can fail; the state is
returned also on failure, so partially applied mutations persist exactly
as they do when a Python exception propagates. -/
abbrev M (α : Type) : Type := Sys → Except Err α × Sys

instance : Monad M where
  pure a := fun s => (Except.ok a, s)
  bind x f := fun s =>
    match x s with
    | (Except.ok a, s1) => f a s1
    | (Except.error e, s1) => (Except.error e, s1)

/-- Raise an error. -/
def throwE {α : Type} (e : Err) : M α := fun s => (Except.error e, s)

/-- Python try/except: run the handler on the raised error. -/
def catchE {α : Type} (x : M α) (hnd : Err → M α) : M α := fun s =>
  match x s with
  | (Except.ok a, s1) => (Except.ok a, s1)
  | (Except.error e, s1) => hnd e s1

/-- Record an effect request in the trace. -/
def addTrace (s : Sys) (e : Eff) : Sys := { s with trace := s.trace ++ [e] }

/-- Monadic fold in evaluation order, used for the Python `for` loops. -/
def mFold {α β : Type} : List α → β → (β → α → M β) → M β
  | [], b, _ => pure b
  | a :: l, b, f => do
    let b1 ← f b a
    mFold l b1 f

/-- Fetch a registered handle (in Python the caller holds the object). -/
def getHandle (id : Nat) : M FileHandle := fun s =>
  match s.files.lookup id with
  | some h => (Except.ok h, s)
  | none => (Except.error Err.handleMissing, s)

/-- Store a handle in the `File.files` registry under its id. -/
def setHandle (h : FileHandle) : M Unit := fun s =>
  (Except.ok (), { s with files := assocSet s.files h.id h })

/-- Remove a handle from the registry (`del File.files[id]`). -/
def removeHandle (id : Nat) : M Unit := fun s =>
  (Except.ok (), { s with files := assocErase s.files id })

/-- `EVlobCreate`: stage version 1 of a fresh vlob, returning its id and
trust seeds (seeds are modelled by the id). -/
def vlobCreateM (blob : Blob) : M (Nat × Nat × Nat) := fun s =>
  let s1 := addTrace s (Eff.vlobCreate blob)
  let i := s1.backend.nextId
  (Except.ok (i, i, i),
    { s1 with backend := { s1.backend with
        vlobsStaged := assocSet s1.backend.vlobsStaged i (1, blob),
        nextId := i + 1 } })

/-- Durable version lookup: version `v` of vlob `id`, 1-based. -/
def vlobDurAt (s : Sys) (id v : Nat) : Option Blob :=
  match s.backend.vlobsDur.lookup id with
  | some l => if 1 ≤ v ∧ v ≤ l.length then l.get? (v - 1) else none
  | none => none

/-- `EVlobRead`: staged copy first, then the durable store; returns the
blob together with its version. -/
def vlobReadM (id rts : Nat) (v? : Option Nat) : M (Blob × Nat) := fun s =>
  let s1 := addTrace s (Eff.vlobRead id v?)
  match v? with
  | none =>
    match s1.backend.vlobsStaged.lookup id with
    | some (sv, b) => (Except.ok (b, sv), s1)
    | none =>
      match s1.backend.vlobsDur.lookup id with
      | some l =>
        match l.getLast? with
        | some b => (Except.ok (b, l.length), s1)
        | none => (Except.error Err.vlobNotFound, s1)
      | none => (Except.error Err.vlobNotFound, s1)
  | some v =>
    match s1.backend.vlobsStaged.lookup id with
    | some (sv, b) =>
      if sv = v then (Except.ok (b, v), s1)
      else
        match vlobDurAt s1 id v with
        | some b1 => (Except.ok (b1, v), s1)
        | none => (Except.error Err.vlobNotFound, s1)
    | none =>
      match vlobDurAt s1 id v with
      | some b1 => (Except.ok (b1, v), s1)
      | none => (Except.error Err.vlobNotFound, s1)

/-- `EVlobUpdate`: stage the blob at the submitted version; the submitted
version must be the durable version plus one. -/
def vlobUpdateM (id wts v : Nat) (blob : Blob) : M Unit := fun s =>
  let s1 := addTrace s (Eff.vlobUpdate id v blob)
  if v = ((s1.backend.vlobsDur.lookup id).getD []).length + 1 then
    (Except.ok (),
      { s1 with backend := { s1.backend with
          vlobsStaged := assocSet s1.backend.vlobsStaged id (v, blob) } })
  else (Except.error Err.versionConflict, s1)

/-- `EVlobDelete`: drop the locally staged copy; `VlobNotFound` when there
is none (the durable history survives, which is what lets `restore` read
an old version after `discard`). -/
def vlobDeleteM (id : Nat) : M Unit := fun s =>
  let s1 := addTrace s (Eff.vlobDelete id)
  if s1.backend.vlobsStaged.any (fun p => p.1 = id) then
    (Except.ok (),
      { s1 with backend := { s1.backend with
          vlobsStaged := assocErase s1.backend.vlobsStaged id } })
  else (Except.error Err.vlobNotFound, s1)

/-- `EVlobList`: ids with a locally staged update. -/
def vlobListM : M (List Nat) := fun s =>
  let s1 := addTrace s Eff.vlobList
  (Except.ok (s1.backend.vlobsStaged.map (fun p => p.1)), s1)

/-- `EVlobSynchronize`: push the staged blob to the durable store.  The
server may substitute a fresh identity (the `subst` oracle), in which
case the new id and seeds are returned; otherwise the true-variant is
returned, or the falsy variant when nothing was staged. -/
def vlobSynchronizeM (id : Nat) (subst : Bool) :
    M (Option (Option (Nat × Nat × Nat))) := fun s =>
  let s1 := addTrace s (Eff.vlobSynchronize id)
  match s1.backend.vlobsStaged.lookup id with
  | none => (Except.ok none, s1)
  | some (_, b) =>
    let hist := (s1.backend.vlobsDur.lookup id).getD []
    if subst then
      let nid := s1.backend.nextId
      (Except.ok (some (some (nid, nid, nid))),
        { s1 with backend := { s1.backend with
            vlobsDur := assocSet s1.backend.vlobsDur nid (hist ++ [b]),
            vlobsStaged := assocErase s1.backend.vlobsStaged id,
            nextId := nid + 1 } })
    else
      (Except.ok (some none),
        { s1 with backend := { s1.backend with
            vlobsDur := assocSet s1.backend.vlobsDur id (hist ++ [b]),
            vlobsStaged := assocErase s1.backend.vlobsStaged id } })

/-- `EBlockCreate`: store the content locally under a fresh id. -/
def blockCreateM (content : Bytes) : M Nat := fun s =>
  let s1 := addTrace s (Eff.blockCreate content)
  let i := s1.backend.nextId
  (Except.ok i,
    { s1 with backend := { s1.backend with
        blocksStaged := assocSet s1.backend.blocksStaged i content,
        nextId := i + 1 } })

/-- `EBlockRead`: staged copy first, then the durable store. -/
def blockReadM (id : Nat) : M Bytes := fun s =>
  let s1 := addTrace s (Eff.blockRead id)
  match s1.backend.blocksStaged.lookup id with
  | some c => (Except.ok c, s1)
  | none =>
    match s1.backend.blocksDur.lookup id with
    | some c => (Except.ok c, s1)
    | none => (Except.error Err.blockNotFound, s1)

/-- `EBlockSynchronize`: promote a staged block to durable; no-op when the
block is already durable or unknown. -/
def blockSynchronizeM (id : Nat) : M Unit := fun s =>
  let s1 := addTrace s (Eff.blockSynchronize id)
  match s1.backend.blocksStaged.lookup id with
  | some c =>
    (Except.ok (),
      { s1 with backend := { s1.backend with
          blocksDur := assocSet s1.backend.blocksDur id c,
          blocksStaged := assocErase s1.backend.blocksStaged id } })
  | none => (Except.ok (), s1)

/-- `EBlockDelete`: remove the block, staged or durable; `BlockNotFound`
when unknown. -/
def blockDeleteM (id : Nat) : M Unit := fun s =>
  let s1 := addTrace s (Eff.blockDelete id)
  if s1.backend.blocksStaged.any (fun p => p.1 = id) then
    (Except.ok (),
      { s1 with backend := { s1.backend with
          blocksStaged := assocErase s1.backend.blocksStaged id } })
  else if s1.backend.blocksDur.any (fun p => p.1 = id) then
    (Except.ok (),
      { s1 with backend := { s1.backend with
          blocksDur := assocErase s1.backend.blocksDur id } })
  else (Except.error Err.blockNotFound, s1)

/-! ## File engine (`parsec/core/file.py`, class `File`) -/

/-- Python `sys.maxsize`, the default read size. -/
def maxSize : Nat := 2 ^ 63 - 1

/-- Slicing `[data[i:i + chunk_size] for i in range(0, len(data), chunk_size)]`
with `chunk_size = 4096`, from `File._build_file_blocks`. -/
def chunksOf (data : Bytes) : List Bytes :=
  (List.range' 0 ((data.length + 4095) / 4096) 4096).map
    (fun i => (data.drop i).take 4096)

/-- The chunk list of `_build_file_blocks` after the guard forcing one
empty chunk for empty data. -/
def paddedChunks (data : Bytes) : List Bytes :=
  if chunksOf data = [] then [[]] else chunksOf data

/-- `generate_sym_key()`: a fresh 256-bit key, drawn from the counter. -/
def genKeyM : M Nat := fun s =>
  (Except.ok s.backend.nextId,
    { s with backend := { s.backend with nextId := s.backend.nextId + 1 } })

/-- `File._build_file_blocks` from `parsec/core/file.py` lines 321-343:
chunk the cleartext at 4096-byte boundaries, store one block per chunk
under a fresh group key, and return the block group carrying digest and
size of each chunk.  `selfId` is the handle whose `dirty` flag the
method sets (`none` while `create` still builds the handle). -/
def buildFileBlocksM (selfId : Option Nat) (data : Bytes) : M BlockGroup := do
  let chunks := paddedChunks data
  let key ← genKeyM
  let metas ← mFold chunks [] (fun acc chunk => do
    let bid ← blockCreateM chunk
    pure (acc ++ [BlockMeta.mk bid (digest chunk) chunk.length]))
  match selfId with
  | some i => do
    let h ← getHandle i
    setHandle { h with dirty := true }
  | none => pure ()
  pure (BlockGroup.mk metas key)

/-- Result record of `File._find_matching_blocks`. -/
structure MatchingBlocks where
  preExB : List BlockGroup
  preExD : Bytes
  preInD : Bytes
  inB : List BlockGroup
  postInD : Bytes
  postExD : Bytes
  postExB : List BlockGroup
deriving Repr, DecidableEq

/-- The empty `MatchingBlocks` accumulator. -/
def MatchingBlocks.empty : MatchingBlocks := ⟨[], [], [], [], [], [], []⟩

/-- Append a block to a bucket, coalescing with the last group of the
bucket when it carries the same key. -/
def appendCoalesce (l : List BlockGroup) (key : Nat) (m : BlockMeta) :
    List BlockGroup :=
  match l.getLast? with
  | some g =>
    if g.key = key then l.dropLast ++ [BlockGroup.mk (g.blocks ++ [m]) g.key]
    else l ++ [BlockGroup.mk [m] key]
  | none => l ++ [BlockGroup.mk [m] key]

/-- One iteration of the block-classification loop of
`File._find_matching_blocks` (lines 365-402): the cursor sits after the
current block and the block falls into one of the five buckets, with the
straddling cases reading and splitting the block data. -/
def matchStep (size offset : Nat) (key : Nat) (meta : BlockMeta) :
    Nat × MatchingBlocks → M (Nat × MatchingBlocks) := fun st => do
  let cur0 := st.1
  let mb := st.2
  let cursor := cur0 + meta.size
  if cursor ≤ offset then
    pure (cursor, { mb with preExB := appendCoalesce mb.preExB key meta })
  else if cursor > offset ∧ cur0 < offset then do
    let delta := cursor - offset
    let content ← blockReadM meta.block
    let tl := content.drop (content.length - delta)
    pure (cursor, { mb with
      preExD := content.take (content.length - delta),
      preInD := tl.take size,
      postExD := if size < tl.length then tl.drop size else mb.postExD })
  else if cursor > offset ∧ cursor ≤ offset + size then
    pure (cursor, { mb with inB := appendCoalesce mb.inB key meta })
  else if cursor > offset + size ∧ cur0 < offset + size then do
    let delta := offset + size - cur0
    let content ← blockReadM meta.block
    pure (cursor, { mb with
      postInD := content.take delta,
      postExD := content.drop delta })
  else
    pure (cursor, { mb with postExB := appendCoalesce mb.postExB key meta })

/-- `File._find_matching_blocks` from `parsec/core/file.py` lines 345-411:
read the vlob at the effective version and classify its blocks around
the byte range `[offset, offset + size)`. -/
def findMatchingBlocksM (id : Nat) (size? : Option Nat) (offset : Nat) :
    M MatchingBlocks := do
  let size := size?.getD maxSize
  let h ← getHandle id
  let (blob, _) ← vlobReadM id h.readSeed (some h.getVersion)
  let keyed := blob.flatMap (fun g => g.blocks.map (fun m => (g.key, m)))
  let res ← mFold keyed (0, MatchingBlocks.empty)
    (fun st km => matchStep size offset km.1 km.2 st)
  pure res.2

/-- `File.get_blocks` from `parsec/core/file.py` lines 107-115: ids of the
pre-excluded and included blocks of a whole-file match. -/
def getBlocksM (id : Nat) : M (List Nat) := do
  let mb ← findMatchingBlocksM id none 0
  pure ((mb.preExB ++ mb.inB).flatMap (fun g => g.blocks.map (fun m => m.block)))

/-- `File.write` from `parsec/core/file.py` lines 146-147: queue the
modification, no backend effect. -/
def writeM (id : Nat) (data : Bytes) (offset : Nat) : M Unit := do
  let h ← getHandle id
  setHandle { h with modifications :=
    h.modifications ++ [Modification.write data offset] }

/-- `File.truncate` from `parsec/core/file.py` lines 149-150. -/
def truncateM (id : Nat) (n : Nat) : M Unit := do
  let h ← getHandle id
  setHandle { h with modifications :=
    h.modifications ++ [Modification.truncate n] }

/-- The modification-queue merge at the top of `File.flush` (lines
227-237): build the `ContentBuilder` and track the shortest truncate.
Note the Python falsiness test `if not shortest_truncate`, under which a
recorded shortest truncate of `0` is overwritten by any later one. -/
def mergeModifications (mods : List Modification) : ContentBuilder × Option Nat :=
  mods.foldl
    (fun acc m =>
      match m with
      | Modification.write d o => (acc.1.write d o, acc.2)
      | Modification.truncate n =>
        (acc.1.truncate n,
          match acc.2 with
          | none => some n
          | some st => if st = 0 ∨ st > n then some n else some st))
    (ContentBuilder.empty, none)

/-- `File.flush` from `parsec/core/file.py` lines 222-283: return at once
on an empty queue; otherwise merge the queue, truncate the file when a
truncate was queued, rewrite each pending region, and garbage-collect
the blocks that fell out of the final layout. -/
def flushM (id : Nat) : M Unit := do
  let h ← getHandle id
  if h.modifications = [] then pure ()
  else do
    let bs := mergeModifications h.modifications
    setHandle { h with modifications := [] }
    let prevIds ← getBlocksM id
    match bs.2 with
    | some st => do
      let mb ← findMatchingBlocksM id (some st) 0
      let grp ← buildFileBlocksM (some id) mb.postInD
      let blob := mb.inB ++ [grp]
      let h1 ← getHandle id
      vlobUpdateM id h1.writeSeed (h1.version + 1) blob
      let h2 ← getHandle id
      setHandle { h2 with dirty := true }
    | none => pure ()
    mFold bs.1.contents () (fun _ oc => do
      let mb ← findMatchingBlocksM id (some oc.2.length) oc.1
      let newData := mb.preExD ++ oc.2 ++ mb.postExD
      let grp ← buildFileBlocksM (some id) newData
      let blob := mb.preExB ++ [grp] ++ mb.postExB
      let h1 ← getHandle id
      vlobUpdateM id h1.writeSeed (h1.version + 1) blob
      let h2 ← getHandle id
      setHandle { h2 with dirty := true })
    let curIds ← getBlocksM id
    mFold prevIds () (fun _ bid =>
      if bid ∈ curIds then pure ()
      else catchE (blockDeleteM bid) (fun e =>
        match e with
        | Err.blockNotFound => pure ()
        | _ => throwE e))

/-- `File.read` from `parsec/core/file.py` lines 120-144: flush, plan the
range, and concatenate the partial left data, the decrypted included
blocks (each verified against its digest and declared size) and the
partial right data. -/
def readM (id : Nat) (size? : Option Nat) (offset : Nat) : M Bytes := do
  flushM id
  let mb ← findMatchingBlocksM id size? offset
  let data ← mFold (mb.inB.flatMap (fun g => g.blocks)) mb.preInD
    (fun acc meta => do
      let content ← blockReadM meta.block
      if digest content = meta.dgst ∧ content.length = meta.size then
        pure (acc ++ content)
      else throwE Err.integrityError)
  pure (data ++ mb.postInD)

/-- `File.discard` from `parsec/core/file.py` lines 304-319: clear the
queue, delete every current block and the vlob (swallowing not-found),
clear `dirty`, and report whether anything was actually removed. -/
def discardM (id : Nat) : M Bool := do
  let h ← getHandle id
  setHandle { h with modifications := [] }
  let ids ← getBlocksM id
  let already ← mFold ids false (fun acc bid =>
    catchE (do blockDeleteM bid; pure acc)
      (fun e =>
        match e with
        | Err.blockNotFound => pure true
        | _ => throwE e))
  let already2 ← catchE (do vlobDeleteM id; pure already)
    (fun e =>
      match e with
      | Err.vlobNotFound => pure true
      | _ => throwE e)
  let h2 ← getHandle id
  setHandle { h2 with dirty := false }
  pure !already2

/-- `File.restore` from `parsec/core/file.py` lines 189-201: default the
target to the effective version minus one, reject out-of-range targets
with `FileError of tag bad_version`, then discard, read the historical
version and stage it as the next version. -/
def restoreVersionM (id : Nat) (v? : Option Nat) : M Unit := do
  let h ← getHandle id
  let version := v?.getD (h.getVersion - 1)
  if version < 1 ∨ version ≥ h.getVersion then
    throwE (Err.fileError "bad_version")
  else do
    let _ ← discardM id
    let (blob, _) ← vlobReadM id h.readSeed (some version)
    let h1 ← getHandle id
    vlobUpdateM id h1.writeSeed (h1.version + 1) blob
    let h2 ← getHandle id
    setHandle { h2 with dirty := true }

/-- `File.commit` from `parsec/core/file.py` lines 285-302: flush,
synchronize all current blocks and the vlob; on a fresh server identity
re-register the handle under the new id; bump the version when anything
was pushed; clear `dirty`. -/
def commitM (id : Nat) (subst : Bool) :
    M (Option (Option (Nat × Nat × Nat))) := do
  flushM id
  let ids ← getBlocksM id
  mFold ids () (fun _ bid => blockSynchronizeM bid)
  let res ← vlobSynchronizeM id subst
  match res with
  | none => do
    let h ← getHandle id
    setHandle { h with dirty := false }
    pure none
  | some none => do
    let h ← getHandle id
    setHandle { h with version := h.version + 1, dirty := false }
    pure (some none)
  | some (some (nid, nrts, nwts)) => do
    let h ← getHandle id
    removeHandle h.id
    setHandle { h with
      id := nid, readSeed := nrts, writeSeed := nwts,
      version := h.version + 1, dirty := false }
    pure (some (some (nid, nrts, nwts)))

/-- `File.reencrypt` from `parsec/core/file.py` lines 203-220: flush, read
the current payload, re-key, create a brand-new vlob and re-register the
handle under the fresh identity. -/
def reencryptM (id : Nat) : M Unit := do
  flushM id
  let h ← getHandle id
  let (blob, _) ← vlobReadM id h.readSeed (some h.getVersion)
  let newKey ← genKeyM
  let (nid, nrts, nwts) ← vlobCreateM blob
  removeHandle h.id
  setHandle { h with
    id := nid, readSeed := nrts, writeSeed := nwts,
    encryptor := newKey, dirty := true }

/-- `File.load` from `parsec/core/file.py` lines 78-97: an id already in
the registry returns the existing handle and does nothing else;
otherwise read the vlob, consult the dirty list (decrementing the
version and marking dirty when the read served a staged copy) and
register the fresh handle. -/
def loadM (id key rts wts : Nat) (v? : Option Nat) : M FileHandle := fun s =>
  match s.files.lookup id with
  | some h => (Except.ok h, s)
  | none =>
    (do
      let (_, ver) ← vlobReadM id rts v?
      let lst ← vlobListM
      let dirty := lst.contains id
      let version := if lst.contains id then ver - 1 else ver
      let h : FileHandle := ⟨id, rts, wts, key, version, dirty, []⟩
      setHandle h
      pure h) s

/-- `File.create` from `parsec/core/file.py` lines 58-76: build the empty
block group, generate the vlob key, create the vlob and register the
dirty handle at version 0; returns the new id. -/
def createM : M Nat := do
  let grp ← buildFileBlocksM none []
  let blob := [grp]
  let key ← genKeyM
  let (id, rts, wts) ← vlobCreateM blob
  setHandle ⟨id, rts, wts, key, 0, true, []⟩
  pure id

/-! ## Operation runs -/

/-- Top-level file-engine operations. -/
inductive Op where
  | create
  | load (id key rts wts : Nat) (v : Option Nat)
  | write (id : Nat) (data : Bytes) (offset : Nat)
  | truncate (id n : Nat)
  | flush (id : Nat)
  | read (id : Nat) (size : Option Nat) (offset : Nat)
  | commit (id : Nat) (subst : Bool)
  | discard (id : Nat)
  | restore (id : Nat) (v : Option Nat)
  | reencrypt (id : Nat)

/-- Run one operation, keeping the state also when it fails. -/
def runOp (s : Sys) : Op → Sys
  | Op.create => (createM s).2
  | Op.load id key rts wts v => (loadM id key rts wts v s).2
  | Op.write id data offset => (writeM id data offset s).2
  | Op.truncate id n => (truncateM id n s).2
  | Op.flush id => (flushM id s).2
  | Op.read id size offset => (readM id size offset s).2
  | Op.commit id subst => (commitM id subst s).2
  | Op.discard id => (discardM id s).2
  | Op.restore id v => (restoreVersionM id v s).2
  | Op.reencrypt id => (reencryptM id s).2

/-- The initial state: empty stores, empty registry, empty trace. -/
def sysInit : Sys := ⟨⟨[], [], [], [], 0⟩, [], []⟩

/-- Run a list of operations from the initial state. -/
def runOps (ops : List Op) : Sys := ops.foldl runOp sysInit

/-- The framing asserted by the claim for `encrypt`: a 12-byte IV followed
by a ciphertext of the length of the plaintext and a 16-byte tag. -/
def claimedEncryptShape (enc : Bytes) (pt : Bytes) : Prop :=
  ∃ iv ct tag : Bytes,
    enc = iv ++ ct ++ tag ∧ iv.length = 12 ∧ ct.length = pt.length ∧ tag.length = 16

/-- Reference in-memory buffer semantics, from the words of the claim: a
write splices its bytes at its offset, a truncate cuts the buffer to the
given length. -/
def refApply (buf : Bytes) : Modification → Bytes
  | Modification.write d o => buf.take o ++ d ++ buf.drop (o + d.length)
  | Modification.truncate n => buf.take n

/-- The reference buffer after a whole operation sequence on a fresh file. -/
def refApplyAll (mods : List Modification) : Bytes := mods.foldl refApply []

/-- A trace fragment free of deletion requests, as the restore claim
demands. -/
def noDeleteEffects (tr : List Eff) : Prop :=
  ∀ e ∈ tr, (∀ i, e ≠ Eff.vlobDelete i) ∧ (∀ i, e ≠ Eff.blockDelete i)

instance (tr : List Eff) : Decidable (noDeleteEffects tr) := by
  unfold noDeleteEffects
  have : ∀ e : Eff, Decidable ((∀ i, e ≠ Eff.vlobDelete i) ∧ (∀ i, e ≠ Eff.blockDelete i)) := by
    intro e
    cases e <;> simp <;> infer_instance
  exact List.decidableBAll _ tr

/-- The id assigned to the first created file by the deterministic model
(keys 0 and 2, the empty block 1, the vlob 3). -/
def fid : Nat := 3

/-- The failing modification sequence of the flush/read claim: three
overlapping writes. -/
def c1mods : List Modification :=
  [Modification.write [1, 1] 0, Modification.write [2, 2] 1, Modification.write [3] 2]

/-- The failing run of the flush/read claim: the three writes queued on a
fresh file. -/
def c1sys : Sys :=
  runOps [Op.create, Op.write fid [1, 1] 0, Op.write fid [2, 2] 1, Op.write fid [3] 2]

/-- A file committed twice: content `[9,9,9]` at version 1, `[7,7,9]` at
version 2; a clean registered handle at version 2. -/
def c3sys : Sys :=
  runOps [Op.create, Op.write fid [9, 9, 9] 0, Op.commit fid false,
    Op.write fid [7, 7] 0, Op.commit fid false]

/-- The state right after `create()`: one dirty handle at version 0. -/
def createdSys : Sys := runOps [Op.create]

/-- The version-1 payload of the staged test file: the empty creation
block and the block holding `[9,9,9]`. -/
def blobV1 : Blob := [⟨[⟨1, [], 0⟩], 0⟩, ⟨[⟨5, [9, 9, 9], 3⟩], 4⟩]

/-- The version-2 payload of the staged test file: the empty creation
block and the block holding `[7,7,9]`. -/
def blobV2 : Blob := [⟨[⟨1, [], 0⟩], 0⟩, ⟨[⟨7, [7, 7, 9], 3⟩], 6⟩]

/-- The state after `create()` and a queued write of `[9,9,9]`. -/
def c3litA : Sys :=
  ⟨⟨[], [(3, 1, [⟨[⟨1, [], 0⟩], 0⟩])], [], [(1, [])], 4⟩,
    [(3, ⟨3, 3, 3, 2, 0, true, [Modification.write [9, 9, 9] 0]⟩)],
    [Eff.blockCreate [], Eff.vlobCreate [⟨[⟨1, [], 0⟩], 0⟩]]⟩

/-- The trace after the first commit of the staged test file. -/
def c3traceB : List Eff :=
  [Eff.blockCreate [], Eff.vlobCreate [⟨[⟨1, [], 0⟩], 0⟩],
    Eff.vlobRead 3 (some 1), Eff.vlobRead 3 (some 1), Eff.blockCreate [9, 9, 9],
    Eff.vlobUpdate 3 1 blobV1, Eff.vlobRead 3 (some 1), Eff.vlobRead 3 (some 1),
    Eff.blockSynchronize 1, Eff.blockSynchronize 5, Eff.vlobSynchronize 3]

/-- The state after the first commit: version 1 durable, clean handle. -/
def c3litB : Sys :=
  ⟨⟨[(3, [blobV1])], [], [(1, []), (5, [9, 9, 9])], [], 6⟩,
    [(3, ⟨3, 3, 3, 2, 1, false, []⟩)], c3traceB⟩

/-- The state after queueing the second write of `[7,7]`. -/
def c3litC : Sys :=
  ⟨⟨[(3, [blobV1])], [], [(1, []), (5, [9, 9, 9])], [], 6⟩,
    [(3, ⟨3, 3, 3, 2, 1, false, [Modification.write [7, 7] 0]⟩)], c3traceB⟩

/-- The state after the second commit: versions 1 and 2 durable, clean
handle at version 2. -/
def c3litD : Sys :=
  ⟨⟨[(3, [blobV1, blobV2])], [], [(1, []), (7, [7, 7, 9])], [], 8⟩,
    [(3, ⟨3, 3, 3, 2, 2, false, []⟩)],
    c3traceB ++
      [Eff.vlobRead 3 (some 1), Eff.vlobRead 3 (some 1), Eff.blockRead 5,
        Eff.blockCreate [7, 7, 9], Eff.vlobUpdate 3 2 blobV2,
        Eff.vlobRead 3 (some 2), Eff.blockDelete 5, Eff.vlobRead 3 (some 2),
        Eff.blockSynchronize 1, Eff.blockSynchronize 7, Eff.vlobSynchronize 3]⟩


/-- The registry keys of a state. -/
def filesKeys (s : Sys) : List Nat := s.files.map (fun p => p.1)

/-- A computation that leaves the registry untouched and only appends to
the trace. -/
def Frame {α : Type} (m : M α) : Prop :=
  ∀ s : Sys, ((m s).2).files = s.files ∧ ∃ t, ((m s).2).trace = s.trace ++ t

/-- A computation that only appends to the trace. -/
def TraceExt {α : Type} (m : M α) : Prop :=
  ∀ s : Sys, ∃ t, ((m s).2).trace = s.trace ++ t

/-- A computation that keeps the registry keys duplicate-free. -/
def KeepsNodup {α : Type} (m : M α) : Prop :=
  ∀ s : Sys, (filesKeys s).Nodup → (filesKeys (m s).2).Nodup

/-- A computation that never raises `FileError`. -/
def NoFileErr {α : Type} (m : M α) : Prop :=
  ∀ (s : Sys) (t : String), (m s).1 ≠ Except.error (Err.fileError t)

/-- A computation that leaves the whole backend untouched (the read-only
requests). -/
def KeepsBackend {α : Type} (m : M α) : Prop :=
  ∀ s : Sys, ((m s).2).backend = s.backend

/-! ## Helper lemmas -/

theorem mBind_apply {α β : Type} (x : M α) (f : α → M β) (s : Sys) :
    (x >>= f) s = match x s with
      | (Except.ok a, s1) => f a s1
      | (Except.error e, s1) => (Except.error e, s1) := rfl

theorem mPure_apply {α : Type} (a : α) (s : Sys) :
    (pure a : M α) s = (Except.ok a, s) := rfl

theorem frame_pure {α : Type} (a : α) : Frame (pure a : M α) := by
  intro s
  exact ⟨rfl, [], by simp [mPure_apply]⟩

theorem frame_throwE {α : Type} (e : Err) : Frame (throwE e : M α) := by
  intro s
  exact ⟨rfl, [], by simp [throwE]⟩

theorem frame_bind {α β : Type} {x : M α} {f : α → M β}
    (hx : Frame x) (hf : ∀ a, Frame (f a)) : Frame (x >>= f) := by
  intro s
  obtain ⟨hfile, t, htr⟩ := hx s
  rw [mBind_apply]
  rcases hxs : x s with ⟨r, s1⟩
  rw [hxs] at hfile htr
  cases r with
  | ok a =>
    obtain ⟨hfile2, t2, htr2⟩ := hf a s1
    exact ⟨hfile2.trans hfile, t ++ t2, by rw [htr2, htr, List.append_assoc]⟩
  | error e => exact ⟨hfile, t, htr⟩

theorem frame_catchE {α : Type} {x : M α} {hnd : Err → M α}
    (hx : Frame x) (hh : ∀ e, Frame (hnd e)) : Frame (catchE x hnd) := by
  intro s
  obtain ⟨hfile, t, htr⟩ := hx s
  unfold catchE
  rcases hxs : x s with ⟨r, s1⟩
  rw [hxs] at hfile htr
  cases r with
  | ok a => exact ⟨hfile, t, htr⟩
  | error e =>
    obtain ⟨hfile2, t2, htr2⟩ := hh e s1
    exact ⟨hfile2.trans hfile, t ++ t2, by rw [htr2, htr, List.append_assoc]⟩

theorem frame_mFold {α β : Type} (l : List α) (f : β → α → M β)
    (hf : ∀ b a, Frame (f b a)) : ∀ b, Frame (mFold l b f) := by
  induction l with
  | nil => intro b; exact frame_pure b
  | cons a l ih =>
    intro b
    exact frame_bind (hf b a) (fun b1 => ih b1)

theorem frame_getHandle (id : Nat) : Frame (getHandle id) := by
  intro s
  unfold getHandle
  cases s.files.lookup id <;> exact ⟨rfl, [], by simp⟩

theorem frame_genKeyM : Frame genKeyM := by
  intro s
  exact ⟨rfl, [], by simp [genKeyM]⟩

theorem frame_vlobCreateM (blob : Blob) : Frame (vlobCreateM blob) := by
  intro s
  unfold vlobCreateM addTrace
  (try dsimp only)
  (repeat' split)
  all_goals exact ⟨rfl, _, rfl⟩

theorem frame_vlobReadM (id rts : Nat) (v? : Option Nat) :
    Frame (vlobReadM id rts v?) := by
  intro s
  unfold vlobReadM addTrace
  (try dsimp only)
  (repeat' split)
  all_goals exact ⟨rfl, _, rfl⟩

theorem frame_vlobUpdateM (id wts v : Nat) (blob : Blob) :
    Frame (vlobUpdateM id wts v blob) := by
  intro s
  unfold vlobUpdateM addTrace
  (try dsimp only)
  (repeat' split)
  all_goals exact ⟨rfl, _, rfl⟩

theorem frame_vlobDeleteM (id : Nat) : Frame (vlobDeleteM id) := by
  intro s
  unfold vlobDeleteM addTrace
  (try dsimp only)
  (repeat' split)
  all_goals exact ⟨rfl, _, rfl⟩

theorem frame_vlobListM : Frame vlobListM := by
  intro s
  unfold vlobListM addTrace
  (try dsimp only)
  (repeat' split)
  all_goals exact ⟨rfl, _, rfl⟩

theorem frame_vlobSynchronizeM (id : Nat) (subst : Bool) :
    Frame (vlobSynchronizeM id subst) := by
  intro s
  unfold vlobSynchronizeM addTrace
  (try dsimp only)
  (repeat' split)
  all_goals exact ⟨rfl, _, rfl⟩

theorem frame_blockCreateM (content : Bytes) : Frame (blockCreateM content) := by
  intro s
  unfold blockCreateM addTrace
  (try dsimp only)
  (repeat' split)
  all_goals exact ⟨rfl, _, rfl⟩

theorem frame_blockReadM (id : Nat) : Frame (blockReadM id) := by
  intro s
  unfold blockReadM addTrace
  (try dsimp only)
  (repeat' split)
  all_goals exact ⟨rfl, _, rfl⟩

theorem frame_blockSynchronizeM (id : Nat) : Frame (blockSynchronizeM id) := by
  intro s
  unfold blockSynchronizeM addTrace
  (try dsimp only)
  (repeat' split)
  all_goals exact ⟨rfl, _, rfl⟩

theorem frame_blockDeleteM (id : Nat) : Frame (blockDeleteM id) := by
  intro s
  unfold blockDeleteM addTrace
  (try dsimp only)
  (repeat' split)
  all_goals exact ⟨rfl, _, rfl⟩

theorem frame_matchStep (size offset key : Nat) (meta : BlockMeta)
    (st : Nat × MatchingBlocks) : Frame (matchStep size offset key meta st) := by
  unfold matchStep
  (try dsimp only)
  (repeat' split) <;>
    first
      | exact frame_pure _
      | exact frame_bind (frame_blockReadM _) (fun c => frame_pure _)

theorem frame_findMatchingBlocksM (id : Nat) (size? : Option Nat) (offset : Nat) :
    Frame (findMatchingBlocksM id size? offset) := by
  unfold findMatchingBlocksM
  (try dsimp only)
  refine frame_bind (frame_getHandle id) (fun h => ?_)
  refine frame_bind (frame_vlobReadM _ _ _) (fun bv => ?_)
  cases bv with
  | mk blob vv =>
    exact frame_bind
      (frame_mFold _ _ (fun st km => frame_matchStep _ _ _ _ _) _)
      (fun res => frame_pure _)

theorem frame_getBlocksM (id : Nat) : Frame (getBlocksM id) := by
  unfold getBlocksM
  exact frame_bind (frame_findMatchingBlocksM id none 0) (fun mb => frame_pure _)

theorem nodupKeys_assocSet {β : Type} (l : List (Nat × β)) (k : Nat) (v : β)
    (h : (l.map (fun p => p.1)).Nodup) :
    ((assocSet l k v).map (fun p => p.1)).Nodup := by
  unfold assocSet
  split
  · have : (l.map (fun p => if p.1 = k then (k, v) else p)).map (fun p => p.1) =
        l.map (fun p => p.1) := by
      rw [List.map_map]
      refine List.map_congr_left (fun p hp => ?_)
      by_cases hk : p.1 = k <;> simp [hk]
    rw [this]
    exact h
  · rename_i hn
    rw [List.map_append]
    have hk : k ∉ l.map (fun p => p.1) := by
      intro hmem
      obtain ⟨p, hp, hpk⟩ := List.mem_map.mp hmem
      apply hn
      rw [List.any_eq_true]
      exact ⟨p, hp, by simp [hpk]⟩
    simp only [List.map_cons, List.map_nil]
    exact List.Nodup.append h (List.nodup_singleton k)
      (by simpa [List.disjoint_singleton] using hk)

theorem nodupKeys_assocErase {β : Type} (l : List (Nat × β)) (k : Nat)
    (h : (l.map (fun p => p.1)).Nodup) :
    ((assocErase l k).map (fun p => p.1)).Nodup := by
  refine List.Nodup.sublist (List.Sublist.map _ ?_) h
  exact List.filter_sublist l

theorem keeps_of_frame {α : Type} {m : M α} (hm : Frame m) : KeepsNodup m := by
  intro s h
  unfold filesKeys at h ⊢
  rw [(hm s).1]
  exact h

theorem keeps_pure {α : Type} (a : α) : KeepsNodup (pure a : M α) :=
  keeps_of_frame (frame_pure a)

theorem keeps_throwE {α : Type} (e : Err) : KeepsNodup (throwE e : M α) :=
  keeps_of_frame (frame_throwE e)

theorem keeps_bind {α β : Type} {x : M α} {f : α → M β}
    (hx : KeepsNodup x) (hf : ∀ a, KeepsNodup (f a)) : KeepsNodup (x >>= f) := by
  intro s h
  rw [mBind_apply]
  rcases hxs : x s with ⟨r, s1⟩
  have h1 : (filesKeys s1).Nodup := by
    have := hx s h
    rw [hxs] at this
    exact this
  cases r with
  | ok a => exact hf a s1 h1
  | error e => exact h1

theorem keeps_catchE {α : Type} {x : M α} {hnd : Err → M α}
    (hx : KeepsNodup x) (hh : ∀ e, KeepsNodup (hnd e)) : KeepsNodup (catchE x hnd) := by
  intro s h
  unfold catchE
  rcases hxs : x s with ⟨r, s1⟩
  have h1 : (filesKeys s1).Nodup := by
    have := hx s h
    rw [hxs] at this
    exact this
  cases r with
  | ok a => exact h1
  | error e => exact hh e s1 h1

theorem keeps_mFold {α β : Type} (l : List α) (f : β → α → M β)
    (hf : ∀ b a, KeepsNodup (f b a)) : ∀ b, KeepsNodup (mFold l b f) := by
  induction l with
  | nil => intro b; exact keeps_pure b
  | cons a l ih =>
    intro b
    exact keeps_bind (hf b a) (fun b1 => ih b1)

theorem keeps_setHandle (h : FileHandle) : KeepsNodup (setHandle h) := by
  intro s hs
  unfold setHandle filesKeys
  exact nodupKeys_assocSet s.files h.id h hs

theorem keeps_removeHandle (id : Nat) : KeepsNodup (removeHandle id) := by
  intro s hs
  unfold removeHandle filesKeys
  exact nodupKeys_assocErase s.files id hs

theorem keeps_buildFileBlocksM (selfId : Option Nat) (data : Bytes) :
    KeepsNodup (buildFileBlocksM selfId data) := by
  unfold buildFileBlocksM
  (try dsimp only)
  refine keeps_bind (keeps_of_frame frame_genKeyM) (fun key => ?_)
  refine keeps_bind
    (keeps_of_frame (frame_mFold _ _
      (fun b a => frame_bind (frame_blockCreateM _) (fun i => frame_pure _)) _))
    (fun metas => ?_)
  cases selfId with
  | some i =>
    exact keeps_bind (keeps_of_frame (frame_getHandle i))
      (fun h => keeps_bind (keeps_setHandle _) (fun _ => keeps_pure _))
  | none => exact keeps_bind (keeps_pure ()) (fun _ => keeps_pure _)

theorem keeps_flushM (id : Nat) : KeepsNodup (flushM id) := by
  unfold flushM
  (try dsimp only)
  refine keeps_bind (keeps_of_frame (frame_getHandle id)) (fun h => ?_)
  split
  · exact keeps_pure _
  · refine keeps_bind (keeps_setHandle _) (fun _ => ?_)
    refine keeps_bind (keeps_of_frame (frame_getBlocksM id)) (fun prevIds => ?_)
    split
    · refine keeps_bind (keeps_of_frame (frame_findMatchingBlocksM _ _ _))
        (fun mb => ?_)
      refine keeps_bind (keeps_buildFileBlocksM _ _) (fun grp => ?_)
      refine keeps_bind (keeps_of_frame (frame_getHandle id)) (fun h1 => ?_)
      refine keeps_bind (keeps_of_frame (frame_vlobUpdateM _ _ _ _)) (fun _ => ?_)
      refine keeps_bind (keeps_of_frame (frame_getHandle id)) (fun h2 => ?_)
      refine keeps_bind (keeps_setHandle _) (fun _ => ?_)
      refine keeps_bind (keeps_mFold _ _ (fun b oc => ?_) _) (fun _ => ?_)
      · refine keeps_bind (keeps_of_frame (frame_findMatchingBlocksM _ _ _))
          (fun mb1 => ?_)
        refine keeps_bind (keeps_buildFileBlocksM _ _) (fun grp1 => ?_)
        refine keeps_bind (keeps_of_frame (frame_getHandle id)) (fun h3 => ?_)
        refine keeps_bind (keeps_of_frame (frame_vlobUpdateM _ _ _ _)) (fun _ => ?_)
        exact keeps_bind (keeps_of_frame (frame_getHandle id))
          (fun h4 => keeps_setHandle _)
      · refine keeps_bind (keeps_of_frame (frame_getBlocksM id)) (fun curIds => ?_)
        refine keeps_mFold _ _ (fun b bid => ?_) _
        split
        · exact keeps_pure _
        · refine keeps_catchE (keeps_of_frame (frame_blockDeleteM _)) (fun e => ?_)
          cases e <;> first | exact keeps_pure _ | exact keeps_throwE _
    · refine keeps_bind (keeps_pure ()) (fun _ => ?_)
      refine keeps_bind (keeps_mFold _ _ (fun b oc => ?_) _) (fun _ => ?_)
      · refine keeps_bind (keeps_of_frame (frame_findMatchingBlocksM _ _ _))
          (fun mb1 => ?_)
        refine keeps_bind (keeps_buildFileBlocksM _ _) (fun grp1 => ?_)
        refine keeps_bind (keeps_of_frame (frame_getHandle id)) (fun h3 => ?_)
        refine keeps_bind (keeps_of_frame (frame_vlobUpdateM _ _ _ _)) (fun _ => ?_)
        exact keeps_bind (keeps_of_frame (frame_getHandle id))
          (fun h4 => keeps_setHandle _)
      · refine keeps_bind (keeps_of_frame (frame_getBlocksM id)) (fun curIds => ?_)
        refine keeps_mFold _ _ (fun b bid => ?_) _
        split
        · exact keeps_pure _
        · refine keeps_catchE (keeps_of_frame (frame_blockDeleteM _)) (fun e => ?_)
          cases e <;> first | exact keeps_pure _ | exact keeps_throwE _

theorem keeps_writeM (id : Nat) (data : Bytes) (offset : Nat) :
    KeepsNodup (writeM id data offset) := by
  unfold writeM
  exact keeps_bind (keeps_of_frame (frame_getHandle id)) (fun h => keeps_setHandle _)

theorem keeps_truncateM (id n : Nat) : KeepsNodup (truncateM id n) := by
  unfold truncateM
  exact keeps_bind (keeps_of_frame (frame_getHandle id)) (fun h => keeps_setHandle _)

theorem keeps_readM (id : Nat) (size? : Option Nat) (offset : Nat) :
    KeepsNodup (readM id size? offset) := by
  unfold readM
  (try dsimp only)
  refine keeps_bind (keeps_flushM id) (fun _ => ?_)
  refine keeps_bind (keeps_of_frame (frame_findMatchingBlocksM _ _ _)) (fun mb => ?_)
  refine keeps_bind ?_ (fun data => keeps_pure _)
  refine keeps_of_frame (frame_mFold _ _ (fun acc meta => ?_) _)
  refine frame_bind (frame_blockReadM _) (fun c => ?_)
  split
  · exact frame_pure _
  · exact frame_throwE _

theorem keeps_discardM (id : Nat) : KeepsNodup (discardM id) := by
  unfold discardM
  (try dsimp only)
  refine keeps_bind (keeps_of_frame (frame_getHandle id)) (fun h => ?_)
  refine keeps_bind (keeps_setHandle _) (fun _ => ?_)
  refine keeps_bind (keeps_of_frame (frame_getBlocksM id)) (fun ids => ?_)
  refine keeps_bind (keeps_mFold _ _ (fun acc bid => ?_) _) (fun already => ?_)
  · refine keeps_catchE
      (keeps_bind (keeps_of_frame (frame_blockDeleteM _)) (fun _ => keeps_pure _))
      (fun e => ?_)
    cases e <;> first | exact keeps_pure _ | exact keeps_throwE _
  · refine keeps_bind ?_ (fun already2 => ?_)
    · refine keeps_catchE
        (keeps_bind (keeps_of_frame (frame_vlobDeleteM _)) (fun _ => keeps_pure _))
        (fun e => ?_)
      cases e <;> first | exact keeps_pure _ | exact keeps_throwE _
    · refine keeps_bind (keeps_of_frame (frame_getHandle id)) (fun h2 => ?_)
      exact keeps_bind (keeps_setHandle _) (fun _ => keeps_pure _)

theorem keeps_restoreM (id : Nat) (v? : Option Nat) : KeepsNodup (restoreVersionM id v?) := by
  unfold restoreVersionM
  (try dsimp only)
  refine keeps_bind (keeps_of_frame (frame_getHandle id)) (fun h => ?_)
  split
  · exact keeps_throwE _
  · refine keeps_bind (keeps_discardM id) (fun _ => ?_)
    refine keeps_bind (keeps_of_frame (frame_vlobReadM _ _ _)) (fun bv => ?_)
    cases bv with
    | mk blob vv =>
      refine keeps_bind (keeps_of_frame (frame_getHandle id)) (fun h1 => ?_)
      refine keeps_bind (keeps_of_frame (frame_vlobUpdateM _ _ _ _)) (fun _ => ?_)
      exact keeps_bind (keeps_of_frame (frame_getHandle id))
        (fun h2 => keeps_setHandle _)

theorem keeps_commitM (id : Nat) (subst : Bool) : KeepsNodup (commitM id subst) := by
  unfold commitM
  (try dsimp only)
  refine keeps_bind (keeps_flushM id) (fun _ => ?_)
  refine keeps_bind (keeps_of_frame (frame_getBlocksM id)) (fun ids => ?_)
  refine keeps_bind
    (keeps_of_frame (frame_mFold _ _
      (fun b bid => frame_blockSynchronizeM _) _)) (fun _ => ?_)
  refine keeps_bind (keeps_of_frame (frame_vlobSynchronizeM _ _)) (fun res => ?_)
  match res with
  | none =>
    exact keeps_bind (keeps_of_frame (frame_getHandle id))
      (fun h => keeps_bind (keeps_setHandle _) (fun _ => keeps_pure _))
  | some none =>
    exact keeps_bind (keeps_of_frame (frame_getHandle id))
      (fun h => keeps_bind (keeps_setHandle _) (fun _ => keeps_pure _))
  | some (some (nid, nrts, nwts)) =>
    refine keeps_bind (keeps_of_frame (frame_getHandle id)) (fun h => ?_)
    refine keeps_bind (keeps_removeHandle _) (fun _ => ?_)
    exact keeps_bind (keeps_setHandle _) (fun _ => keeps_pure _)

theorem keeps_reencryptM (id : Nat) : KeepsNodup (reencryptM id) := by
  unfold reencryptM
  (try dsimp only)
  refine keeps_bind (keeps_flushM id) (fun _ => ?_)
  refine keeps_bind (keeps_of_frame (frame_getHandle id)) (fun h => ?_)
  refine keeps_bind (keeps_of_frame (frame_vlobReadM _ _ _)) (fun bv => ?_)
  cases bv with
  | mk blob vv =>
    refine keeps_bind (keeps_of_frame frame_genKeyM) (fun newKey => ?_)
    refine keeps_bind (keeps_of_frame (frame_vlobCreateM _)) (fun ids => ?_)
    match ids with
    | (nid, nrts, nwts) =>
      exact keeps_bind (keeps_removeHandle _) (fun _ => keeps_setHandle _)

theorem keeps_loadM (id key rts wts : Nat) (v? : Option Nat) :
    KeepsNodup (loadM id key rts wts v?) := by
  intro s hs
  unfold loadM
  cases hl : s.files.lookup id with
  | some h => exact hs
  | none =>
    refine keeps_bind (keeps_of_frame (frame_vlobReadM _ _ _)) (fun bv => ?_) s hs
    cases bv with
    | mk blob ver =>
      refine keeps_bind (keeps_of_frame frame_vlobListM) (fun lst => ?_)
      (try dsimp only)
      exact keeps_bind (keeps_setHandle _) (fun _ => keeps_pure _)

theorem keeps_createM : KeepsNodup createM := by
  unfold createM
  refine keeps_bind (keeps_buildFileBlocksM _ _) (fun grp => ?_)
  (try dsimp only)
  refine keeps_bind (keeps_of_frame frame_genKeyM) (fun key => ?_)
  refine keeps_bind (keeps_of_frame (frame_vlobCreateM _)) (fun ids => ?_)
  match ids with
  | (id, rts, wts) =>
    exact keeps_bind (keeps_setHandle _) (fun _ => keeps_pure _)

theorem runOp_nodup (s : Sys) (op : Op) (h : (filesKeys s).Nodup) :
    (filesKeys (runOp s op)).Nodup := by
  cases op with
  | create => exact keeps_createM s h
  | load id key rts wts v => exact keeps_loadM id key rts wts v s h
  | write id data offset => exact keeps_writeM id data offset s h
  | truncate id n => exact keeps_truncateM id n s h
  | flush id => exact keeps_flushM id s h
  | read id size offset => exact keeps_readM id size offset s h
  | commit id subst => exact keeps_commitM id subst s h
  | discard id => exact keeps_discardM id s h
  | restore id v => exact keeps_restoreM id v s h
  | reencrypt id => exact keeps_reencryptM id s h

theorem runOps_nodup (ops : List Op) : (filesKeys (runOps ops)).Nodup := by
  unfold runOps
  have hgen : ∀ (l : List Op) (s : Sys), (filesKeys s).Nodup →
      (filesKeys (l.foldl runOp s)).Nodup := by
    intro l
    induction l with
    | nil => intro s hs; exact hs
    | cons op l ih =>
      intro s hs
      exact ih (runOp s op) (runOp_nodup s op hs)
  exact hgen ops sysInit (by simp [sysInit, filesKeys])

theorem getHandle_ok {s : Sys} {id : Nat} {h : FileHandle}
    (hh : s.files.lookup id = some h) : getHandle id s = (Except.ok h, s) := by
  unfold getHandle
  rw [hh]

theorem setHandle_apply (h : FileHandle) (s : Sys) :
    setHandle h s = (Except.ok (), { s with files := assocSet s.files h.id h }) := rfl

theorem lookup_assocSet {β : Type} (l : List (Nat × β)) (k : Nat) (v : β) :
    (assocSet l k v).lookup k = some v := by
  unfold assocSet
  split
  · rename_i hany
    induction l with
    | nil => simp at hany
    | cons p l ih =>
      by_cases hk : p.1 = k
      · simp only [List.map_cons, if_pos hk]
        simp [List.lookup]
      · have hany2 : (l.any fun q => decide (q.1 = k)) = true := by
          simpa [List.any_cons, hk] using hany
        have hb : (k == p.1) = false := beq_eq_false_iff_ne.mpr (fun hkk => hk hkk.symm)
        simp only [List.map_cons, if_neg hk]
        simp only [List.lookup, hb]
        exact ih hany2
  · rename_i hany
    induction l with
    | nil => simp [List.lookup]
    | cons p l ih =>
      have hh : ¬ p.1 = k ∧ ¬ (l.any fun q => decide (q.1 = k)) = true := by
        simpa [List.any_cons, not_or] using hany
      have hb : (k == p.1) = false := beq_eq_false_iff_ne.mpr (fun hkk => hh.1 hkk.symm)
      rw [List.cons_append]
      simp only [List.lookup, hb]
      exact ih hh.2

theorem vlobDeleteM_trace (id : Nat) (s : Sys) :
    ((vlobDeleteM id s).2).trace = s.trace ++ [Eff.vlobDelete id] := by
  unfold vlobDeleteM addTrace
  (try dsimp only)
  split <;> rfl

theorem vlobReadM_state (id rts : Nat) (v? : Option Nat) (s : Sys) :
    (vlobReadM id rts v? s).2 = addTrace s (Eff.vlobRead id v?) := by
  unfold vlobReadM
  (try dsimp only)
  (repeat' split) <;> rfl

theorem vlobUpdateM_trace (id wts v : Nat) (blob : Blob) (s : Sys) :
    ((vlobUpdateM id wts v blob s).2).trace = s.trace ++ [Eff.vlobUpdate id v blob] := by
  unfold vlobUpdateM addTrace
  (try dsimp only)
  split <;> rfl

theorem vlobUpdateM_files (id wts v : Nat) (blob : Blob) (s : Sys) :
    ((vlobUpdateM id wts v blob s).2).files = s.files := by
  unfold vlobUpdateM addTrace
  (try dsimp only)
  split <;> rfl

theorem lookup_assocErase {β : Type} (l : List (Nat × β)) (k : Nat) :
    (assocErase l k).lookup k = none := by
  unfold assocErase
  induction l with
  | nil => rfl
  | cons p rest ih =>
    by_cases hp : p.1 = k
    · simpa [List.filter_cons, hp] using ih
    · have hb : (k == p.1) = false := beq_eq_false_iff_ne.mpr (fun hkk => hp hkk.symm)
      rw [List.filter_cons, if_pos (decide_eq_true hp)]
      simp only [List.lookup, hb]
      exact ih

theorem lookup_none_of_any_eq_false {β : Type} (l : List (Nat × β)) (k : Nat)
    (h : (l.any fun p => p.1 = k) = false) : l.lookup k = none := by
  induction l with
  | nil => rfl
  | cons p rest ih =>
    have hh : ¬ p.1 = k ∧ (rest.any fun q => decide (q.1 = k)) = false := by
      simpa [List.any_cons] using h
    have hb : (k == p.1) = false := beq_eq_false_iff_ne.mpr (fun hkk => hh.1 hkk.symm)
    simp only [List.lookup, hb]
    exact ih hh.2

theorem kb_pure {α : Type} (a : α) : KeepsBackend (pure a : M α) := fun _ => rfl

theorem kb_bind {α β : Type} {x : M α} {f : α → M β}
    (hx : KeepsBackend x) (hf : ∀ a, KeepsBackend (f a)) : KeepsBackend (x >>= f) := by
  intro s
  rw [mBind_apply]
  rcases hxs : x s with ⟨r, s1⟩
  have hx1 : s1.backend = s.backend := by
    have := hx s
    rw [hxs] at this
    exact this
  cases r with
  | ok a => exact (hf a s1).trans hx1
  | error e => exact hx1

theorem kb_mFold {α β : Type} (l : List α) (f : β → α → M β)
    (hf : ∀ b a, KeepsBackend (f b a)) : ∀ b, KeepsBackend (mFold l b f) := by
  induction l with
  | nil => intro b; exact kb_pure b
  | cons a l ih => intro b; exact kb_bind (hf b a) (fun b1 => ih b1)

theorem kb_getHandle (id : Nat) : KeepsBackend (getHandle id) := by
  intro s
  unfold getHandle
  cases s.files.lookup id <;> rfl

theorem kb_vlobReadM (id rts : Nat) (v? : Option Nat) :
    KeepsBackend (vlobReadM id rts v?) := by
  intro s
  unfold vlobReadM addTrace
  (try dsimp only)
  (repeat' split) <;> rfl

theorem kb_blockReadM (id : Nat) : KeepsBackend (blockReadM id) := by
  intro s
  unfold blockReadM addTrace
  (try dsimp only)
  (repeat' split) <;> rfl

theorem kb_matchStep (size offset key : Nat) (meta : BlockMeta)
    (st : Nat × MatchingBlocks) : KeepsBackend (matchStep size offset key meta st) := by
  unfold matchStep
  (try dsimp only)
  (repeat' split) <;>
    first
      | exact kb_pure _
      | exact kb_bind (kb_blockReadM _) (fun c => kb_pure _)

theorem kb_findMatchingBlocksM (id : Nat) (size? : Option Nat) (offset : Nat) :
    KeepsBackend (findMatchingBlocksM id size? offset) := by
  unfold findMatchingBlocksM
  (try dsimp only)
  refine kb_bind (kb_getHandle id) (fun h => ?_)
  refine kb_bind (kb_vlobReadM _ _ _) (fun bv => ?_)
  cases bv with
  | mk blob vv =>
    exact kb_bind
      (kb_mFold _ _ (fun st km => kb_matchStep _ _ _ _ _) _)
      (fun res => kb_pure _)

theorem kb_getBlocksM (id : Nat) : KeepsBackend (getBlocksM id) := by
  unfold getBlocksM
  exact kb_bind (kb_findMatchingBlocksM id none 0) (fun mb => kb_pure _)

/-- One step of the block-deletion loop of `discardM`: it always succeeds
(`BlockNotFound` is swallowed), appends exactly the block-delete request
to the trace, and leaves the durable vlob store untouched. -/
theorem discardStep_run (acc : Bool) (bid : Nat) (s : Sys) :
    ∃ (b : Bool) (s1 : Sys),
      catchE (do blockDeleteM bid; pure acc)
        (fun e => match e with
          | Err.blockNotFound => pure true
          | _ => throwE e) s = (Except.ok b, s1) ∧
      s1.trace = s.trace ++ [Eff.blockDelete bid] ∧
      s1.backend.vlobsDur = s.backend.vlobsDur := by
  by_cases hst : ((addTrace s (Eff.blockDelete bid)).backend.blocksStaged.any
      (fun p => p.1 = bid)) = true
  · have hv : blockDeleteM bid s = (Except.ok (),
        { addTrace s (Eff.blockDelete bid) with
          backend := { (addTrace s (Eff.blockDelete bid)).backend with
            blocksStaged :=
              assocErase (addTrace s (Eff.blockDelete bid)).backend.blocksStaged bid } }) := by
      unfold blockDeleteM
      rw [if_pos hst]
    have hc : catchE (do blockDeleteM bid; pure acc)
        (fun e => match e with
          | Err.blockNotFound => pure true
          | _ => throwE e) s = (Except.ok acc, (blockDeleteM bid s).2) := by
      unfold catchE
      rw [mBind_apply, hv]
    exact ⟨acc, (blockDeleteM bid s).2, hc, by rw [hv]; rfl, by rw [hv]; rfl⟩
  · by_cases hdu : ((addTrace s (Eff.blockDelete bid)).backend.blocksDur.any
        (fun p => p.1 = bid)) = true
    · have hv : blockDeleteM bid s = (Except.ok (),
          { addTrace s (Eff.blockDelete bid) with
            backend := { (addTrace s (Eff.blockDelete bid)).backend with
              blocksDur :=
                assocErase (addTrace s (Eff.blockDelete bid)).backend.blocksDur bid } }) := by
        unfold blockDeleteM
        rw [if_neg hst, if_pos hdu]
      have hc : catchE (do blockDeleteM bid; pure acc)
          (fun e => match e with
            | Err.blockNotFound => pure true
            | _ => throwE e) s = (Except.ok acc, (blockDeleteM bid s).2) := by
        unfold catchE
        rw [mBind_apply, hv]
      exact ⟨acc, (blockDeleteM bid s).2, hc, by rw [hv]; rfl, by rw [hv]; rfl⟩
    · have hv : blockDeleteM bid s =
          (Except.error Err.blockNotFound, addTrace s (Eff.blockDelete bid)) := by
        unfold blockDeleteM
        rw [if_neg hst, if_neg hdu]
      have hc : catchE (do blockDeleteM bid; pure acc)
          (fun e => match e with
            | Err.blockNotFound => pure true
            | _ => throwE e) s = (Except.ok true, (blockDeleteM bid s).2) := by
        unfold catchE
        rw [mBind_apply, hv]
        rfl
      exact ⟨true, (blockDeleteM bid s).2, hc, by rw [hv]; rfl, by rw [hv]; rfl⟩

/-- A fold whose every step succeeds and appends one request leaves a
trace extension containing the request of every list element, and keeps
the durable vlob store. -/
theorem okFold_run {g : Bool → Nat → M Bool} (eff : Nat → Eff)
    (hg : ∀ acc bid s, ∃ (b : Bool) (s1 : Sys), g acc bid s = (Except.ok b, s1) ∧
      s1.trace = s.trace ++ [eff bid] ∧ s1.backend.vlobsDur = s.backend.vlobsDur)
    (ids : List Nat) : ∀ (acc : Bool) (s : Sys),
    ∃ (b : Bool) (s1 : Sys) (u : List Eff),
      mFold ids acc g s = (Except.ok b, s1) ∧
      s1.trace = s.trace ++ u ∧
      s1.backend.vlobsDur = s.backend.vlobsDur ∧
      ∀ bid ∈ ids, eff bid ∈ u := by
  induction ids with
  | nil =>
    intro acc s
    exact ⟨acc, s, [], rfl, by simp, rfl, by simp⟩
  | cons bid rest ih =>
    intro acc s
    obtain ⟨b1, s1, hstep, htr1, hdur1⟩ := hg acc bid s
    obtain ⟨b2, s2, u2, hfold, htr2, hdur2, hmem2⟩ := ih b1 s1
    refine ⟨b2, s2, eff bid :: u2, ?_, ?_, ?_, ?_⟩
    · simp only [mFold]
      rw [mBind_apply, hstep]
      exact hfold
    · rw [htr2, htr1]
      simp
    · exact hdur2.trans hdur1
    · intro x hx
      rcases List.mem_cons.mp hx with hx | hx
      · rw [hx]
        exact List.mem_cons_self _ _
      · exact List.mem_cons_of_mem _ (hmem2 x hx)

/-- Stepping lemma for `discardM`: on a registered handle, a successful
discard clears the modification queue, clears `dirty`, leaves the handle
registered, erases any staged vlob copy, keeps the durable vlob history,
and its trace extension contains the vlob-delete request and a
block-delete request for every current block (per `File.get_blocks`). -/
theorem discard_run (s : Sys) (id : Nat) (h : FileHandle) (r : Except Err Bool)
    (s1 : Sys) (hh : s.files.lookup id = some h) (hid : h.id = id)
    (hrun : discardM id s = (r, s1)) (b : Bool) (hok : r = Except.ok b) :
    s1.files.lookup id = some { h with modifications := [], dirty := false } ∧
    s1.backend.vlobsStaged.lookup id = none ∧
    s1.backend.vlobsDur = s.backend.vlobsDur ∧
    ∃ t ids, s1.trace = s.trace ++ t ∧ Eff.vlobDelete id ∈ t ∧
      (getBlocksM id
          { s with files := assocSet s.files id { h with modifications := [] } }).1 =
        Except.ok ids ∧
      ∀ bid ∈ ids, Eff.blockDelete bid ∈ t := by
  unfold discardM at hrun
  simp only [mBind_apply, getHandle_ok hh, setHandle_apply] at hrun
  set h1 : FileHandle := { h with modifications := [] } with hh1
  set s2 : Sys := { s with files := assocSet s.files h1.id h1 } with hs2
  have hs2files : s2.files.lookup id = some h1 := by
    rw [hs2]
    simpa [hid] using lookup_assocSet s.files id h1
  have hs2trace : s2.trace = s.trace := rfl
  have hid1 : h1.id = id := hid
  have hs2eq : s2 = { s with files := assocSet s.files id h1 } := by
    rw [hs2, hid1]
  -- step: getBlocksM
  rcases h3 : getBlocksM id s2 with ⟨r3, s3⟩
  rw [h3] at hrun
  have hfr3 := frame_getBlocksM id s2
  rw [h3] at hfr3
  obtain ⟨hf3, t3, ht3⟩ := hfr3
  have hb3 : s3.backend = s2.backend := by
    have := kb_getBlocksM id s2
    rw [h3] at this
    exact this
  cases r3 with
  | error e =>
    rw [hok] at hrun
    exact absurd (congrArg Prod.fst hrun).symm (by simp)
  | ok ids =>
  have hids : (getBlocksM id ({ s with files := assocSet s.files id h1 })).1 =
      Except.ok ids := by
    rw [← hs2eq, h3]
  simp only [mBind_apply] at hrun
  have hframe_step : ∀ (bb : Bool) (bid : Nat), Frame (catchE
      (do blockDeleteM bid; pure bb)
      (fun e => match e with
        | Err.blockNotFound => pure true
        | _ => throwE e)) := by
    intro bb bid
    refine frame_catchE (frame_bind (frame_blockDeleteM _) (fun _ => frame_pure _))
      (fun e => ?_)
    cases e <;> first | exact frame_pure _ | exact frame_throwE _
  rcases h4 : mFold ids false (fun acc bid => catchE
      (do blockDeleteM bid; pure acc)
      (fun e => match e with
        | Err.blockNotFound => pure true
        | _ => throwE e)) s3 with ⟨r4, s4⟩
  rw [h4] at hrun
  have hfr4 := frame_mFold ids _ (fun bb bid => hframe_step bb bid) false s3
  rw [h4] at hfr4
  obtain ⟨hf4, t4, ht4⟩ := hfr4
  obtain ⟨b4, s4', u4, hfold, htr4', hdur4', hmem4'⟩ :=
    @okFold_run (fun acc bid => catchE
      (do blockDeleteM bid; pure acc)
      (fun e => match e with
        | Err.blockNotFound => pure true
        | _ => throwE e)) Eff.blockDelete discardStep_run ids false s3
  have h44 : (Except.ok b4, s4') = ((r4, s4) : Except Err Bool × Sys) :=
    hfold.symm.trans h4
  have hs4eq : s4 = s4' := (congrArg Prod.snd h44).symm
  have htr4 : s4.trace = s3.trace ++ u4 := by
    rw [hs4eq]
    exact htr4'
  have hdur4 : s4.backend.vlobsDur = s3.backend.vlobsDur := by
    rw [hs4eq]
    exact hdur4'
  cases r4 with
  | error e =>
    rw [hok] at hrun
    exact absurd (congrArg Prod.fst hrun).symm (by simp)
  | ok already =>
  simp only [mBind_apply] at hrun
  rcases h5 : catchE (do vlobDeleteM id; pure already)
      (fun e => match e with
        | Err.vlobNotFound => pure true
        | _ => throwE e) s4 with ⟨r5, s5⟩
  rw [h5] at hrun
  have hfr5files : s5.files = s4.files ∧ ∃ u, s5.trace = s4.trace ++
      [Eff.vlobDelete id] ++ u := by
    unfold catchE at h5
    rcases h6 : (do vlobDeleteM id; pure already : M Bool) s4 with ⟨r6, s6⟩
    have h6files : s6.files = s4.files := by
      have := frame_bind (frame_vlobDeleteM id) (fun _ => frame_pure already) s4
      rw [h6] at this
      exact this.1
    have h6trace : s6.trace = s4.trace ++ [Eff.vlobDelete id] := by
      have hb : ((do vlobDeleteM id; pure already : M Bool) s4).2 =
          ((vlobDeleteM id s4).2) := by
        rw [mBind_apply]
        rcases hv : vlobDeleteM id s4 with ⟨rv, sv⟩
        cases rv <;> simp [mPure_apply]
      rw [h6] at hb
      have hb2 : s6 = (vlobDeleteM id s4).2 := hb
      rw [hb2, vlobDeleteM_trace]
    rw [h6] at h5
    have key : ∀ s5' : Sys, s5' = s6 →
        s5'.files = s4.files ∧
          ∃ u, s5'.trace = s4.trace ++ [Eff.vlobDelete id] ++ u := by
      intro s5' hs5
      rw [hs5]
      exact ⟨h6files, [], by simpa using h6trace⟩
    cases r6 with
    | ok a => exact key s5 (congrArg Prod.snd h5).symm
    | error e => cases e <;> exact key s5 (congrArg Prod.snd h5).symm
  obtain ⟨hf5, t5, ht5⟩ := hfr5files
  have hstep5 : s5.backend.vlobsStaged.lookup id = none ∧
      s5.backend.vlobsDur = s4.backend.vlobsDur := by
    unfold catchE at h5
    by_cases hany : ((addTrace s4 (Eff.vlobDelete id)).backend.vlobsStaged.any
        (fun p => p.1 = id)) = true
    · have hv : vlobDeleteM id s4 = (Except.ok (),
          { addTrace s4 (Eff.vlobDelete id) with
            backend := { (addTrace s4 (Eff.vlobDelete id)).backend with
              vlobsStaged :=
                assocErase (addTrace s4 (Eff.vlobDelete id)).backend.vlobsStaged id } }) := by
        unfold vlobDeleteM
        rw [if_pos hany]
      have hdo : (do vlobDeleteM id; pure already : M Bool) s4 =
          (Except.ok already, (vlobDeleteM id s4).2) := by
        rw [mBind_apply, hv]
        rfl
      rw [hdo] at h5
      have hs5b : s5 = (vlobDeleteM id s4).2 :=
        (congrArg Prod.snd h5).symm
      rw [hs5b, hv]
      exact ⟨lookup_assocErase _ _, rfl⟩
    · have hv : vlobDeleteM id s4 =
          (Except.error Err.vlobNotFound, addTrace s4 (Eff.vlobDelete id)) := by
        unfold vlobDeleteM
        rw [if_neg hany]
      have hdo : (do vlobDeleteM id; pure already : M Bool) s4 =
          (Except.error Err.vlobNotFound, addTrace s4 (Eff.vlobDelete id)) := by
        rw [mBind_apply, hv]
      rw [hdo] at h5
      have hs5b : s5 = addTrace s4 (Eff.vlobDelete id) := by
        have h5ok : (Except.ok true, addTrace s4 (Eff.vlobDelete id)) =
            ((r5, s5) : Except Err Bool × Sys) := h5
        exact (congrArg Prod.snd h5ok).symm
      rw [hs5b]
      refine ⟨lookup_none_of_any_eq_false _ _ ?_, rfl⟩
      exact Bool.eq_false_iff.mpr hany
  cases r5 with
  | error e =>
    rw [hok] at hrun
    exact absurd (congrArg Prod.fst hrun).symm (by simp)
  | ok already2 =>
  have hs5lookup : s5.files.lookup id = some h1 := by
    rw [hf5, hf4, hf3]
    exact hs2files
  simp only [mBind_apply, getHandle_ok hs5lookup, setHandle_apply, mPure_apply] at hrun
  have hs1 : s1 = { s5 with
      files := assocSet s5.files h1.id { h1 with dirty := false } } :=
    (congrArg Prod.snd hrun).symm
  refine ⟨?_, ?_, ?_, t3 ++ u4 ++ [Eff.vlobDelete id] ++ t5, ids, ?_, by simp, hids, ?_⟩
  · rw [hs1]
    simpa [hid] using lookup_assocSet s5.files id { h1 with dirty := false }
  · rw [hs1]
    exact hstep5.1
  · rw [hs1]
    show s5.backend.vlobsDur = s.backend.vlobsDur
    rw [hstep5.2, hdur4, hb3]
  · rw [hs1]
    show s5.trace = s.trace ++ (t3 ++ u4 ++ [Eff.vlobDelete id] ++ t5)
    rw [ht5, htr4, ht3, hs2trace]
    simp [List.append_assoc]
  · intro x hx
    simp only [List.mem_append]
    exact Or.inl (Or.inl (Or.inr (hmem4' x hx)))

theorem gcmBodyInv_gcmBody (key : Nat) (pt : Bytes) :
    gcmBodyInv key (gcmBody key pt) = pt := by
  unfold gcmBody gcmBodyInv
  rw [List.map_map]
  have h : ∀ b : Nat, b + key + 1 - (key + 1) = b := by omega
  simp [Function.comp_def, h]

theorem gcmBody_length (key : Nat) (pt : Bytes) :
    (gcmBody key pt).length = pt.length := by
  simp [gcmBody]

theorem aesEncrypt_length (key : Nat) (iv : Bytes) (pt : Bytes)
    (hiv : iv.length = 16) : (aesEncrypt key iv pt).length = pt.length + 32 := by
  simp [aesEncrypt, hiv, gcmBody_length, gcmTag]
  omega

theorem gcmTag_length (key : Nat) (iv : Bytes) (pt : Bytes) :
    (gcmTag key iv pt).length = 16 := by simp [gcmTag]

/-- Decryption slices a 16-byte IV and a 16-byte tag off an encryption and
recovers the plaintext. -/
theorem aesDecrypt_aesEncrypt (key : Nat) (iv : Bytes) (pt : Bytes)
    (hiv : iv.length = 16) : aesDecrypt key (aesEncrypt key iv pt) = Except.ok pt := by
  have hlen : (aesEncrypt key iv pt).length = pt.length + 32 :=
    aesEncrypt_length key iv pt hiv
  have hct : (gcmBody key pt).length = pt.length := gcmBody_length key pt
  have htake : (aesEncrypt key iv pt).take (aesBlockSizeBits / 8) = iv := by
    have h16 : aesBlockSizeBits / 8 = 16 := by norm_num [aesBlockSizeBits]
    rw [h16, aesEncrypt, List.append_assoc, List.take_left' hiv]
  have hdrop : (aesEncrypt key iv pt).drop 16 = gcmBody key pt ++ gcmTag key iv pt := by
    rw [aesEncrypt, List.append_assoc, List.drop_left' hiv]
  have hbody : ((aesEncrypt key iv pt).drop 16).take
      ((aesEncrypt key iv pt).length - 16 - 16) = gcmBody key pt := by
    rw [hdrop, hlen]
    have : pt.length + 32 - 16 - 16 = (gcmBody key pt).length := by omega
    rw [this, List.take_left]
  have htag : (aesEncrypt key iv pt).drop ((aesEncrypt key iv pt).length - 16) =
      gcmTag key iv pt := by
    rw [hlen, aesEncrypt]
    have : pt.length + 32 - 16 = (iv ++ gcmBody key pt).length := by
      simp [hiv, hct]; omega
    rw [this, List.drop_left]
  unfold aesDecrypt
  rw [htake, hbody, htag]
  simp [gcmBodyInv_gcmBody]


/-! ## Claim theorems -/

/-- C2: the claim that no two regions of the `ContentBuilder` map ever
overlap is false: a write overlapping the right edge of an existing
region hits none of the three merge branches and is inserted as a
second, overlapping region.  After `write([65,65], 0)` then
`write([66,66], 1)` the map holds `(0, [65,65])` and `(1, [66,66])`,
which overlap. -/
theorem contentBuilder_overlap_violation :
    ¬ regionsDisjoint ((ContentBuilder.empty.write [65, 65] 0).write
      [66, 66] 1).contents ∧
    ((ContentBuilder.empty.write [65, 65] 0).write [66, 66] 1).contents =
      [(0, [65, 65]), (1, [66, 66])] := by
  constructor
  · decide
  · decide

/-- C1: evaluation of the failing input.  Queueing the writes
`([1,1], 0)`, `([2,2], 1)`, `([3], 2)` on a fresh file and then reading
with no size bound returns `[3,2,2]`, while the reference in-memory
buffer yields `[1,2,3]`: the merge loop of `ContentBuilder.write`
overwrites the merged data of the first region with the original write
data when a later region also matches, losing the earlier content. -/
theorem flush_read_diverges_from_reference :
    (readM fid none 0 c1sys).1 = Except.ok [3, 2, 2] ∧
    refApplyAll c1mods = [1, 2, 3] ∧
    ([3, 2, 2] : Bytes) ≠ [1, 2, 3] := by
  refine ⟨?_, by decide, by decide⟩
  simp only [c1sys, runOps, runOp, List.foldl, sysInit]
  simp [readM, flushM, createM, writeM, mBind_apply, mPure_apply, getHandle, setHandle,
    addTrace, genKeyM, buildFileBlocksM, mFold, blockCreateM, vlobCreateM,
    vlobReadM, vlobUpdateM, vlobListM, vlobDeleteM, blockReadM, blockDeleteM,
    findMatchingBlocksM, getBlocksM, matchStep, appendCoalesce, mergeModifications,
    ContentBuilder.empty, ContentBuilder.write, ContentBuilder.truncate, setKey,
    assocSet, assocErase, vlobDurAt, catchE, throwE, digest, paddedChunks, chunksOf,
    maxSize, MatchingBlocks.empty, FileHandle.getVersion, List.lookup, fid, pySuffixFrom]

/-- C5: the claim that `encrypt` prepends a random 12-byte IV is false: the
source draws `urandom(AES.block_size // 8)` bytes and `AES.block_size`
is 128 bits, so the IV has 16 bytes.  An encryption of the empty
plaintext has 32 bytes, while the claimed framing only allows 28. -/
theorem encrypt_iv_not_twelve_cex :
    ¬ claimedEncryptShape (aesEncrypt 5 (List.replicate 16 7) []) [] := by
  intro h
  obtain ⟨iv, ct, tag, heq, h12, hct, h16⟩ := h
  have hl : (aesEncrypt 5 (List.replicate 16 7) []).length = 32 := by decide
  rw [heq] at hl
  simp [h12, hct, h16] at hl

/-- C5 (amended): `encrypt(pt) = IV || CT || TAG` with a 16-byte IV, a
ciphertext of the length of the plaintext and a 16-byte tag, and
`decrypt` recovers the plaintext by slicing off exactly that IV and
TAG. -/
theorem encrypt_frame_and_decrypt_slice (key : Nat) (iv pt : Bytes)
    (hiv : iv.length = 16) :
    (∃ ct tag : Bytes, aesEncrypt key iv pt = iv ++ ct ++ tag ∧
      ct.length = pt.length ∧ tag.length = 16) ∧
    aesDecrypt key (aesEncrypt key iv pt) = Except.ok pt :=
  ⟨⟨gcmBody key pt, gcmTag key iv pt, rfl, gcmBody_length key pt,
    gcmTag_length key iv pt⟩, aesDecrypt_aesEncrypt key iv pt hiv⟩

/-- Witness for the amended encryption-framing claim at a concrete key, IV
and plaintext. -/
theorem encrypt_frame_and_decrypt_slice_witness :
    (List.replicate 16 7 : Bytes).length = 16 ∧
    ((∃ ct tag : Bytes,
        aesEncrypt 5 (List.replicate 16 7) [9] = List.replicate 16 7 ++ ct ++ tag ∧
        ct.length = ([9] : Bytes).length ∧ tag.length = 16) ∧
      aesDecrypt 5 (aesEncrypt 5 (List.replicate 16 7) [9]) = Except.ok [9]) :=
  ⟨by decide, encrypt_frame_and_decrypt_slice 5 (List.replicate 16 7) [9] (by decide)⟩

/-- C8: decrypting an encryption recovers the message, re-encrypting the
result with a fresh IV still decrypts to the message, and the two
ciphertexts differ whenever the IVs do. -/
theorem decrypt_encrypt_roundtrip_stable (key : Nat) (m iv1 iv2 : Bytes)
    (h1 : iv1.length = 16) (h2 : iv2.length = 16) :
    aesDecrypt key (aesEncrypt key iv1 m) = Except.ok m ∧
    (∀ p : Bytes, aesDecrypt key (aesEncrypt key iv1 m) = Except.ok p →
      aesDecrypt key (aesEncrypt key iv2 p) = Except.ok m) ∧
    (iv1 ≠ iv2 → aesEncrypt key iv1 m ≠ aesEncrypt key iv2 m) := by
  refine ⟨aesDecrypt_aesEncrypt key iv1 m h1, ?_, ?_⟩
  · intro p hp
    rw [aesDecrypt_aesEncrypt key iv1 m h1] at hp
    injection hp with hmp
    rw [← hmp]
    exact aesDecrypt_aesEncrypt key iv2 m h2
  · intro hne heq
    have h := congrArg (List.take 16) heq
    rw [aesEncrypt, aesEncrypt, List.append_assoc, List.append_assoc,
      List.take_left' h1, List.take_left' h2] at h
    exact hne h

/-- Witness for the round-trip claim at a concrete key, message and pair of
distinct IVs. -/
theorem decrypt_encrypt_roundtrip_stable_witness :
    (List.replicate 16 0 : Bytes).length = 16 ∧
    (List.replicate 16 1 : Bytes).length = 16 ∧
    (aesDecrypt 4 (aesEncrypt 4 (List.replicate 16 0) [8, 8]) = Except.ok [8, 8] ∧
      (∀ p : Bytes,
        aesDecrypt 4 (aesEncrypt 4 (List.replicate 16 0) [8, 8]) = Except.ok p →
        aesDecrypt 4 (aesEncrypt 4 (List.replicate 16 1) p) = Except.ok [8, 8]) ∧
      (List.replicate 16 0 ≠ (List.replicate 16 1 : Bytes) →
        aesEncrypt 4 (List.replicate 16 0) [8, 8] ≠
          aesEncrypt 4 (List.replicate 16 1) [8, 8])) :=
  ⟨by decide, by decide,
    decrypt_encrypt_roundtrip_stable 4 [8, 8] (List.replicate 16 0)
      (List.replicate 16 1) (by decide) (by decide)⟩

theorem createdSys_eq : createdSys =
    ⟨⟨[], [(3, (1, [⟨[⟨1, [], 0⟩], 0⟩]))], [], [(1, [])], 4⟩,
      [(3, ⟨3, 3, 3, 2, 0, true, []⟩)],
      [Eff.blockCreate [], Eff.vlobCreate [⟨[⟨1, [], 0⟩], 0⟩]]⟩ := by
  simp [createdSys, runOps, runOp, List.foldl, sysInit, createM, mBind_apply,
    mPure_apply, getHandle, setHandle, addTrace, genKeyM, buildFileBlocksM, mFold,
    blockCreateM, vlobCreateM, assocSet, digest, paddedChunks, chunksOf]

/-- C6: the registry keeps at most one handle per vlob id along any
operation sequence from the initial state, and `load` on an already
registered id returns the existing handle and leaves the state
untouched. -/
theorem registry_unique_and_load_identity :
    (∀ ops : List Op, ((runOps ops).files.map (fun p => p.1)).Nodup) ∧
    (∀ (s : Sys) (id key rts wts : Nat) (v? : Option Nat) (h : FileHandle),
      s.files.lookup id = some h → loadM id key rts wts v? s = (Except.ok h, s)) := by
  constructor
  · intro ops
    exact runOps_nodup ops
  · intro s id key rts wts v? h hh
    unfold loadM
    rw [hh]

/-- Witness for the registry claim: two creates keep the keys
duplicate-free, and a load of the registered id 3 returns the existing
handle unchanged. -/
theorem registry_unique_and_load_identity_witness :
    ((runOps [Op.create, Op.create]).files.map (fun p => p.1)).Nodup ∧
    (createdSys.files.lookup fid = some (FileHandle.mk 3 3 3 2 0 true []) ∧
      loadM fid 9 8 7 none createdSys =
        (Except.ok (FileHandle.mk 3 3 3 2 0 true []), createdSys)) := by
  refine ⟨registry_unique_and_load_identity.1 [Op.create, Op.create], ?_, ?_⟩
  · rw [createdSys_eq]
    rfl
  · exact registry_unique_and_load_identity.2 createdSys fid 9 8 7 none _
      (by rw [createdSys_eq]; rfl)

/-- C10: a flush of a handle with an empty modification queue returns at
once: no effect request is issued and the state, registry included, is
returned unchanged. -/
theorem flush_empty_queue_noop (s : Sys) (id : Nat) (h : FileHandle)
    (hh : s.files.lookup id = some h) (hm : h.modifications = []) :
    flushM id s = (Except.ok (), s) := by
  unfold flushM
  simp [mBind_apply, getHandle_ok hh, hm, mPure_apply]

/-- Witness for the empty-queue flush claim on the state right after
`create()`. -/
theorem flush_empty_queue_noop_witness :
    createdSys.files.lookup fid = some (FileHandle.mk 3 3 3 2 0 true []) ∧
    (FileHandle.mk 3 3 3 2 0 true []).modifications = [] ∧
    flushM fid createdSys = (Except.ok (), createdSys) :=
  ⟨by rw [createdSys_eq]; rfl, rfl,
    flush_empty_queue_noop createdSys fid (FileHandle.mk 3 3 3 2 0 true [])
      (by rw [createdSys_eq]; rfl) rfl⟩

/-- C9: the claim that the registry no longer contains the id after
`discard()` is false: `File.discard` never touches `File.files`.  On the
state right after `create()`, a successful discard leaves the handle
registered (with its queue cleared and `dirty` reset). -/
theorem discard_keeps_registry_cex :
    (discardM fid createdSys).1 = Except.ok true ∧
    ((discardM fid createdSys).2).files.lookup fid =
      some (FileHandle.mk 3 3 3 2 0 false []) := by
  rw [createdSys_eq]
  constructor <;>
    simp [discardM, mBind_apply, mPure_apply, getHandle, setHandle, addTrace,
      getBlocksM, findMatchingBlocksM, matchStep, appendCoalesce, mFold, catchE,
      throwE, vlobReadM, vlobDeleteM, blockDeleteM, blockReadM, vlobDurAt,
      assocSet, assocErase, MatchingBlocks.empty, FileHandle.getVersion, maxSize,
      fid, List.lookup]

/-- C9 (amended): after a successful `discard()` the registry still
contains an entry for the handle id: discard clears the modification
queue and the dirty flag but never releases the handle from
`File.files`. -/
theorem discard_leaves_registry_entry (s : Sys) (id : Nat) (h : FileHandle)
    (r : Except Err Bool) (s1 : Sys) (b : Bool)
    (hh : s.files.lookup id = some h) (hid : h.id = id)
    (hrun : discardM id s = (r, s1)) (hok : r = Except.ok b) :
    s1.files.lookup id = some { h with modifications := [], dirty := false } :=
  (discard_run s id h r s1 hh hid hrun b hok).1

/-- Witness for the amended discard claim on the state right after
`create()`. -/
theorem discard_leaves_registry_entry_witness :
    createdSys.files.lookup fid = some (FileHandle.mk 3 3 3 2 0 true []) ∧
    (FileHandle.mk 3 3 3 2 0 true []).id = fid ∧
    (discardM fid createdSys).1 = Except.ok true ∧
    ((discardM fid createdSys).2).files.lookup fid =
      some (FileHandle.mk 3 3 3 2 0 false []) := by
  have hlookup : createdSys.files.lookup fid = some (FileHandle.mk 3 3 3 2 0 true []) := by
    rw [createdSys_eq]
    rfl
  have hok : (discardM fid createdSys).1 = Except.ok true := by
    rw [createdSys_eq]
    simp [discardM, mBind_apply, mPure_apply, getHandle, setHandle, addTrace,
      getBlocksM, findMatchingBlocksM, matchStep, appendCoalesce, mFold, catchE,
      throwE, vlobReadM, vlobDeleteM, blockDeleteM, blockReadM, vlobDurAt,
      assocSet, assocErase, MatchingBlocks.empty, FileHandle.getVersion, maxSize,
      fid, List.lookup]
  refine ⟨hlookup, rfl, hok, ?_⟩
  exact discard_leaves_registry_entry createdSys fid (FileHandle.mk 3 3 3 2 0 true [])
    (discardM fid createdSys).1 (discardM fid createdSys).2 true hlookup rfl
    (@Prod.mk.eta _ _ (discardM fid createdSys)).symm hok

theorem noferr_pure {α : Type} (a : α) : NoFileErr (pure a : M α) := by
  intro s t
  simp [mPure_apply]

theorem noferr_throwE {α : Type} (e : Err) (he : ∀ t, e ≠ Err.fileError t) :
    NoFileErr (throwE e : M α) := by
  intro s t
  simp only [throwE, ne_eq, Except.error.injEq]
  intro hc
  exact he t hc

theorem noferr_bind {α β : Type} {x : M α} {f : α → M β}
    (hx : NoFileErr x) (hf : ∀ a, NoFileErr (f a)) : NoFileErr (x >>= f) := by
  intro s t
  rw [mBind_apply]
  rcases hxs : x s with ⟨r, s1⟩
  cases r with
  | ok a => exact hf a s1 t
  | error e =>
    intro hc
    apply hx s t
    rw [hxs]
    simpa using hc

theorem noferr_catchE {α : Type} {x : M α} {hnd : Err → M α}
    (hx : NoFileErr x)
    (hh : ∀ e, (∀ t, e ≠ Err.fileError t) → NoFileErr (hnd e)) :
    NoFileErr (catchE x hnd) := by
  intro s t
  unfold catchE
  rcases hxs : x s with ⟨r, s1⟩
  cases r with
  | ok a => simp
  | error e =>
    have he : ∀ u, e ≠ Err.fileError u := by
      intro u hu
      apply hx s u
      rw [hxs, hu]
    exact hh e he s1 t

theorem noferr_mFold {α β : Type} (l : List α) (f : β → α → M β)
    (hf : ∀ b a, NoFileErr (f b a)) : ∀ b, NoFileErr (mFold l b f) := by
  induction l with
  | nil => intro b; exact noferr_pure b
  | cons a l ih =>
    intro b
    exact noferr_bind (hf b a) (fun b1 => ih b1)

theorem noferr_getHandle (id : Nat) : NoFileErr (getHandle id) := by
  intro s t
  unfold getHandle
  split <;> simp

theorem noferr_setHandle (h : FileHandle) : NoFileErr (setHandle h) := by
  intro s t
  simp [setHandle]

theorem noferr_genKeyM : NoFileErr genKeyM := by
  intro s t
  simp [genKeyM]

theorem noferr_vlobReadM (id rts : Nat) (v? : Option Nat) :
    NoFileErr (vlobReadM id rts v?) := by
  intro s t
  unfold vlobReadM addTrace
  (try dsimp only)
  (repeat' split) <;> simp

theorem noferr_vlobUpdateM (id wts v : Nat) (blob : Blob) :
    NoFileErr (vlobUpdateM id wts v blob) := by
  intro s t
  unfold vlobUpdateM addTrace
  (try dsimp only)
  (repeat' split) <;> simp

theorem noferr_vlobDeleteM (id : Nat) : NoFileErr (vlobDeleteM id) := by
  intro s t
  unfold vlobDeleteM addTrace
  (try dsimp only)
  (repeat' split) <;> simp

theorem noferr_blockReadM (id : Nat) : NoFileErr (blockReadM id) := by
  intro s t
  unfold blockReadM addTrace
  (try dsimp only)
  (repeat' split) <;> simp

theorem noferr_blockDeleteM (id : Nat) : NoFileErr (blockDeleteM id) := by
  intro s t
  unfold blockDeleteM addTrace
  (try dsimp only)
  (repeat' split) <;> simp

theorem noferr_matchStep (size offset key : Nat) (meta : BlockMeta)
    (st : Nat × MatchingBlocks) : NoFileErr (matchStep size offset key meta st) := by
  unfold matchStep
  (try dsimp only)
  (repeat' split) <;>
    first
      | exact noferr_pure _
      | exact noferr_bind (noferr_blockReadM _) (fun c => noferr_pure _)

theorem noferr_findMatchingBlocksM (id : Nat) (size? : Option Nat) (offset : Nat) :
    NoFileErr (findMatchingBlocksM id size? offset) := by
  unfold findMatchingBlocksM
  (try dsimp only)
  refine noferr_bind (noferr_getHandle id) (fun h => ?_)
  refine noferr_bind (noferr_vlobReadM _ _ _) (fun bv => ?_)
  cases bv with
  | mk blob vv =>
    exact noferr_bind
      (noferr_mFold _ _ (fun st km => noferr_matchStep _ _ _ _ _) _)
      (fun res => noferr_pure _)

theorem noferr_getBlocksM (id : Nat) : NoFileErr (getBlocksM id) := by
  unfold getBlocksM
  exact noferr_bind (noferr_findMatchingBlocksM id none 0) (fun mb => noferr_pure _)

theorem noferr_discardM (id : Nat) : NoFileErr (discardM id) := by
  unfold discardM
  (try dsimp only)
  refine noferr_bind (noferr_getHandle id) (fun h => ?_)
  refine noferr_bind (noferr_setHandle _) (fun _ => ?_)
  refine noferr_bind (noferr_getBlocksM id) (fun ids => ?_)
  refine noferr_bind (noferr_mFold _ _ (fun acc bid => ?_) _) (fun already => ?_)
  · refine noferr_catchE
      (noferr_bind (noferr_blockDeleteM _) (fun _ => noferr_pure _)) (fun e he => ?_)
    cases e with
    | fileError t => exact absurd rfl (he t)
    | blockNotFound => exact noferr_pure _
    | vlobNotFound => exact noferr_throwE _ (by simp)
    | versionConflict => exact noferr_throwE _ (by simp)
    | handleMissing => exact noferr_throwE _ (by simp)
    | integrityError => exact noferr_throwE _ (by simp)
  · refine noferr_bind ?_ (fun already2 => ?_)
    · refine noferr_catchE
        (noferr_bind (noferr_vlobDeleteM _) (fun _ => noferr_pure _)) (fun e he => ?_)
      cases e with
      | fileError t => exact absurd rfl (he t)
      | vlobNotFound => exact noferr_pure _
      | blockNotFound => exact noferr_throwE _ (by simp)
      | versionConflict => exact noferr_throwE _ (by simp)
      | handleMissing => exact noferr_throwE _ (by simp)
      | integrityError => exact noferr_throwE _ (by simp)
    · refine noferr_bind (noferr_getHandle id) (fun h2 => ?_)
      exact noferr_bind (noferr_setHandle _) (fun _ => noferr_pure _)


theorem c3sys_stage1 : runOps [Op.create, Op.write fid [9, 9, 9] 0] = c3litA := by
  simp [runOps, runOp, List.foldl, sysInit, createM, writeM, mBind_apply,
    mPure_apply, getHandle, setHandle, addTrace, genKeyM, buildFileBlocksM, mFold,
    blockCreateM, vlobCreateM, assocSet, digest, paddedChunks, chunksOf, fid,
    c3litA, List.lookup]

theorem c3sys_stage2 : runOp c3litA (Op.commit fid false) = c3litB := by
  simp [runOp, c3litA, c3litB, c3traceB, blobV1, commitM, flushM, mBind_apply,
    mPure_apply, getHandle, setHandle, addTrace, genKeyM, buildFileBlocksM, mFold,
    blockCreateM, vlobCreateM, vlobReadM, vlobUpdateM, vlobListM, vlobDeleteM,
    blockReadM, blockDeleteM, blockSynchronizeM, vlobSynchronizeM,
    findMatchingBlocksM, getBlocksM, matchStep, appendCoalesce, mergeModifications,
    ContentBuilder.empty, ContentBuilder.write, ContentBuilder.truncate, setKey,
    assocSet, assocErase, vlobDurAt, catchE, throwE, digest, paddedChunks, chunksOf,
    maxSize, MatchingBlocks.empty, FileHandle.getVersion, List.lookup, fid,
    pySuffixFrom]

theorem c3sys_stage3 : runOp c3litB (Op.write fid [7, 7] 0) = c3litC := by
  simp [runOp, c3litB, c3litC, writeM, mBind_apply, mPure_apply, getHandle,
    setHandle, assocSet, fid, List.lookup]

theorem c3sys_stage4 : runOp c3litC (Op.commit fid false) = c3litD := by
  simp [runOp, c3litC, c3litD, c3traceB, blobV1, blobV2, commitM, flushM,
    mBind_apply, mPure_apply, getHandle, setHandle, addTrace, genKeyM,
    buildFileBlocksM, mFold, blockCreateM, vlobCreateM, vlobReadM, vlobUpdateM,
    vlobListM, vlobDeleteM, blockReadM, blockDeleteM, blockSynchronizeM,
    vlobSynchronizeM, findMatchingBlocksM, getBlocksM, matchStep, appendCoalesce,
    mergeModifications, ContentBuilder.empty, ContentBuilder.write,
    ContentBuilder.truncate, setKey, assocSet, assocErase, vlobDurAt, catchE,
    throwE, digest, paddedChunks, chunksOf, maxSize, MatchingBlocks.empty,
    FileHandle.getVersion, List.lookup, fid, pySuffixFrom]

theorem c3sys_eq : c3sys = c3litD := by
  have h0 : c3sys = runOp (runOp (runOp (runOps [Op.create, Op.write fid [9, 9, 9] 0])
      (Op.commit fid false)) (Op.write fid [7, 7] 0)) (Op.commit fid false) := rfl
  rw [h0, c3sys_stage1, c3sys_stage2, c3sys_stage3, c3sys_stage4]

/-- C7 (amended): with an explicit version, `restore` raises
`FileError('bad_version')` exactly when the version is below 1 or at
least `get_version()`; with the default argument it resolves the target
to `get_version() - 1` and raises exactly when `get_version() ≤ 1`, so
the default does raise on a freshly created file. -/
theorem restore_bad_version_iff (s : Sys) (id : Nat) (h : FileHandle)
    (hh : s.files.lookup id = some h) :
    (∀ v : Nat,
      (restoreVersionM id (some v) s).1 = Except.error (Err.fileError "bad_version") ↔
        (v < 1 ∨ v ≥ h.getVersion)) ∧
    ((restoreVersionM id none s).1 = Except.error (Err.fileError "bad_version") ↔
      h.getVersion ≤ 1) := by
  have hnotail : ∀ version : Nat, ∀ s' : Sys,
      ((do
        let _ ← discardM id
        let (blob, _) ← vlobReadM id h.readSeed (some version)
        let h1 ← getHandle id
        vlobUpdateM id h1.writeSeed (h1.version + 1) blob
        let h2 ← getHandle id
        setHandle { h2 with dirty := true } : M Unit) s').1 ≠
        Except.error (Err.fileError "bad_version") := by
    intro version s'
    refine (noferr_bind (noferr_discardM id) (fun _ => ?_)) s' "bad_version"
    refine noferr_bind (noferr_vlobReadM _ _ _) (fun bv => ?_)
    cases bv with
    | mk blob vv =>
      refine noferr_bind (noferr_getHandle id) (fun h1 => ?_)
      refine noferr_bind (noferr_vlobUpdateM _ _ _ _) (fun _ => ?_)
      exact noferr_bind (noferr_getHandle id) (fun h2 => noferr_setHandle _)
  constructor
  · intro v
    unfold restoreVersionM
    simp only [mBind_apply, getHandle_ok hh, Option.getD]
    by_cases hc : v < 1 ∨ v ≥ h.getVersion
    · rw [if_pos hc]
      exact iff_of_true rfl hc
    · rw [if_neg hc]
      exact iff_of_false (hnotail v s) hc
  · unfold restoreVersionM
    simp only [mBind_apply, getHandle_ok hh, Option.getD]
    by_cases hgv : h.getVersion ≤ 1
    · have hc : h.getVersion - 1 < 1 ∨ h.getVersion - 1 ≥ h.getVersion :=
        Or.inl (by omega)
      rw [if_pos hc]
      exact iff_of_true rfl hgv
    · have hc : ¬ (h.getVersion - 1 < 1 ∨ h.getVersion - 1 ≥ h.getVersion) := by
        omega
      rw [if_neg hc]
      exact iff_of_false (hnotail (h.getVersion - 1) s) hgv

/-- C7: the claim that the default argument never raises `bad_version` is
false: on a freshly created file `get_version()` is 1, the default
target resolves to 0, and `restore()` raises
`FileError('bad_version')`. -/
theorem restore_default_bad_version_cex :
    (restoreVersionM fid none createdSys).1 =
      Except.error (Err.fileError "bad_version") := by
  rw [createdSys_eq]
  simp [restoreVersionM, mBind_apply, getHandle, throwE, FileHandle.getVersion,
    fid, List.lookup]

/-- Witness for the amended restore error claim: on the twice-committed
file state, restoring version 5 raises exactly because 5 exceeds the
effective version 2, and the default does not raise. -/
theorem restore_bad_version_iff_witness :
    c3sys.files.lookup fid = some (FileHandle.mk 3 3 3 2 2 false []) ∧
    (((restoreVersionM fid (some 5) c3sys).1 =
        Except.error (Err.fileError "bad_version")) ↔
      (5 < 1 ∨ 5 ≥ (FileHandle.mk 3 3 3 2 2 false []).getVersion)) ∧
    (((restoreVersionM fid none c3sys).1 =
        Except.error (Err.fileError "bad_version")) ↔
      (FileHandle.mk 3 3 3 2 2 false []).getVersion ≤ 1) := by
  have hlookup : c3sys.files.lookup fid = some (FileHandle.mk 3 3 3 2 2 false []) := by
    rw [c3sys_eq]
    rfl
  exact ⟨hlookup,
    (restore_bad_version_iff c3sys fid (FileHandle.mk 3 3 3 2 2 false []) hlookup).1 5,
    (restore_bad_version_iff c3sys fid (FileHandle.mk 3 3 3 2 2 false []) hlookup).2⟩

theorem restore_c3litD_eq : restoreVersionM fid (some 1) c3litD =
    (Except.ok (),
      ⟨⟨[(3, [blobV1, blobV2])], [(3, 3, blobV1)], [], [], 8⟩,
        [(3, ⟨3, 3, 3, 2, 2, true, []⟩)],
        c3litD.trace ++
          [Eff.vlobRead 3 (some 2), Eff.blockDelete 1, Eff.blockDelete 7,
            Eff.vlobDelete 3, Eff.vlobRead 3 (some 1),
            Eff.vlobUpdate 3 3 blobV1]⟩) := by
  simp [restoreVersionM, discardM, c3litD, c3traceB, blobV1, blobV2,
    mBind_apply, mPure_apply, getHandle, setHandle, addTrace, getBlocksM,
    findMatchingBlocksM, matchStep, appendCoalesce, mFold, catchE, throwE,
    vlobReadM, vlobUpdateM, vlobDeleteM, blockDeleteM, blockReadM, vlobDurAt,
    assocSet, assocErase, MatchingBlocks.empty, FileHandle.getVersion, maxSize,
    fid, List.lookup]

/-- C3: the claim that `restore` flushes pending modifications and leaves
blocks and vlob intact is false.  `File.restore` calls `self.discard()`:
on the twice-committed file, restoring the in-range version 1 succeeds
but issues `EBlockDelete` for both durable blocks and an `EVlobDelete`,
emptying the durable block store. -/
theorem restore_issues_deletes_cex :
    (1 ≥ 1 ∧ 1 < (FileHandle.mk 3 3 3 2 2 false []).getVersion) ∧
    c3sys.files.lookup fid = some (FileHandle.mk 3 3 3 2 2 false []) ∧
    c3sys.backend.blocksDur = [(1, []), (7, [7, 7, 9])] ∧
    (restoreVersionM fid (some 1) c3sys).1 = Except.ok () ∧
    ((restoreVersionM fid (some 1) c3sys).2).backend.blocksDur = [] ∧
    ¬ noDeleteEffects (((restoreVersionM fid (some 1) c3sys).2).trace.drop
        c3sys.trace.length) := by
  rw [c3sys_eq, restore_c3litD_eq]
  refine ⟨⟨by decide, by decide⟩, by rfl, by rfl, by rfl, by rfl, ?_⟩
  intro hnd
  refine (hnd (Eff.vlobDelete 3) ?_).1 3 rfl
  simp [c3litD, c3traceB, blobV1, blobV2]

/-- C3 (amended): a successful `restore(version)` with an in-range
explicit version does not flush: it discards the pending modification
queue via `discard()` — issuing a block-delete request for every current
block (per `File.get_blocks`) and a vlob-delete request — then reads the
requested historical version (the blob stored at version `v` in the
durable history) and stages exactly that blob with `VlobUpdate` at the
handle version plus one, marking the handle dirty. -/
theorem restore_discards_and_updates (s : Sys) (id : Nat) (h : FileHandle)
    (v : Nat) (r : Except Err Unit) (s1 : Sys)
    (hh : s.files.lookup id = some h) (hid : h.id = id)
    (h1 : 1 ≤ v) (h2 : v < h.getVersion)
    (hrun : restoreVersionM id (some v) s = (r, s1)) (hok : r = Except.ok ()) :
    s1.files.lookup id = some { h with modifications := [], dirty := true } ∧
    ∃ t ids blob, s1.trace = s.trace ++ t ∧
      vlobDurAt s id v = some blob ∧
      (getBlocksM id
          { s with files := assocSet s.files id { h with modifications := [] } }).1 =
        Except.ok ids ∧
      (∀ bid ∈ ids, Eff.blockDelete bid ∈ t) ∧
      Eff.vlobDelete id ∈ t ∧
      t.drop (t.length - 2) =
        [Eff.vlobRead id (some v), Eff.vlobUpdate id (h.version + 1) blob] := by
  unfold restoreVersionM at hrun
  simp only [mBind_apply, getHandle_ok hh, Option.getD] at hrun
  have hc : ¬ (v < 1 ∨ v ≥ h.getVersion) := by omega
  rw [if_neg hc] at hrun
  simp only [mBind_apply] at hrun
  rcases hd : discardM id s with ⟨rd, sd⟩
  rw [hd] at hrun
  cases rd with
  | error e =>
    rw [hok] at hrun
    exact absurd (congrArg Prod.fst hrun).symm (by simp)
  | ok bd =>
  obtain ⟨hdfiles, hdstaged, hddur, td, ids, htd, hmem, hids, hmemBD⟩ :=
    discard_run s id h _ sd hh hid hd bd rfl
  simp only [mBind_apply] at hrun
  rcases hr : vlobReadM id h.readSeed (some v) sd with ⟨rr, sr⟩
  rw [hr] at hrun
  have hsr : sr = addTrace sd (Eff.vlobRead id (some v)) := by
    have := vlobReadM_state id h.readSeed (some v) sd
    rw [hr] at this
    exact this
  cases rr with
  | error e =>
    rw [hok] at hrun
    exact absurd (congrArg Prod.fst hrun).symm (by simp)
  | ok bv =>
  obtain ⟨blob, vv⟩ := bv
  have hvd : vlobDurAt s id v = some blob := by
    have hr' := hr
    simp only [vlobReadM] at hr'
    have hstagedA : (addTrace sd
        (Eff.vlobRead id (some v))).backend.vlobsStaged.lookup id = none := hdstaged
    simp only [hstagedA] at hr'
    rcases hvda : vlobDurAt (addTrace sd (Eff.vlobRead id (some v))) id v with _ | b1
    · rw [hvda] at hr'
      exact absurd (congrArg Prod.fst hr') (by simp)
    · rw [hvda] at hr'
      have hfst := congrArg Prod.fst hr'
      simp only [Except.ok.injEq, Prod.mk.injEq] at hfst
      have hvda2 : vlobDurAt sd id v = some b1 := hvda
      have hvda3 : vlobDurAt s id v = some b1 := by
        unfold vlobDurAt at hvda2 ⊢
        rw [← hddur]
        exact hvda2
      rw [hvda3, hfst.1]
  have hsrlookup : sr.files.lookup id =
      some { h with modifications := [], dirty := false } := by
    rw [hsr]
    simpa [addTrace] using hdfiles
  simp only [mBind_apply, getHandle_ok hsrlookup] at hrun
  rcases hu : vlobUpdateM id
      ({ h with modifications := [], dirty := false } : FileHandle).writeSeed
      (({ h with modifications := [], dirty := false } : FileHandle).version + 1)
      blob sr with ⟨ru, su⟩
  rw [hu] at hrun
  have hsufiles : su.files = sr.files := by
    have := vlobUpdateM_files id
      ({ h with modifications := [], dirty := false } : FileHandle).writeSeed
      (({ h with modifications := [], dirty := false } : FileHandle).version + 1)
      blob sr
    rw [hu] at this
    exact this
  have hsutrace : su.trace = sr.trace ++
      [Eff.vlobUpdate id (h.version + 1) blob] := by
    have := vlobUpdateM_trace id
      ({ h with modifications := [], dirty := false } : FileHandle).writeSeed
      (({ h with modifications := [], dirty := false } : FileHandle).version + 1)
      blob sr
    rw [hu] at this
    exact this
  cases ru with
  | error e =>
    rw [hok] at hrun
    exact absurd (congrArg Prod.fst hrun).symm (by simp)
  | ok _ =>
  have hsulookup : su.files.lookup id =
      some { h with modifications := [], dirty := false } := by
    rw [hsufiles]
    exact hsrlookup
  simp only [mBind_apply, getHandle_ok hsulookup, setHandle_apply] at hrun
  have hs1 : s1 = { su with
      files := assocSet su.files
        ({ h with modifications := [], dirty := false } : FileHandle).id
        { h with modifications := [], dirty := true } } :=
    (congrArg Prod.snd hrun).symm
  constructor
  · rw [hs1]
    simpa [hid] using lookup_assocSet su.files id
      { h with modifications := [], dirty := true }
  · refine ⟨td ++ [Eff.vlobRead id (some v), Eff.vlobUpdate id (h.version + 1) blob],
      ids, blob, ?_, hvd, hids, ?_, by simp [hmem], ?_⟩
    · rw [hs1]
      show su.trace = s.trace ++ _
      rw [hsutrace, hsr]
      show sd.trace ++ [Eff.vlobRead id (some v)] ++ _ = _
      rw [htd]
      simp [List.append_assoc]
    · intro x hx
      simp only [List.mem_append]
      exact Or.inl (hmemBD x hx)
    · have hlen : (td ++ [Eff.vlobRead id (some v),
          Eff.vlobUpdate id (h.version + 1) blob]).length - 2 = td.length := by
        simp
      rw [hlen, List.drop_left]

/-- Witness for the amended restore claim: restoring version 1 of the
twice-committed file. -/
theorem restore_discards_and_updates_witness :
    c3sys.files.lookup fid = some (FileHandle.mk 3 3 3 2 2 false []) ∧
    (FileHandle.mk 3 3 3 2 2 false []).id = fid ∧
    1 ≤ 1 ∧ 1 < (FileHandle.mk 3 3 3 2 2 false []).getVersion ∧
    (restoreVersionM fid (some 1) c3sys).1 = Except.ok () ∧
    (((restoreVersionM fid (some 1) c3sys).2).files.lookup fid =
        some { FileHandle.mk 3 3 3 2 2 false [] with
          modifications := [], dirty := true } ∧
      ∃ t ids blob, ((restoreVersionM fid (some 1) c3sys).2).trace =
          c3sys.trace ++ t ∧
        vlobDurAt c3sys fid 1 = some blob ∧
        (getBlocksM fid
            { c3sys with files := assocSet c3sys.files fid { FileHandle.mk 3 3 3 2 2 false [] with modifications := [] } }).1 =
          Except.ok ids ∧
        (∀ bid ∈ ids, Eff.blockDelete bid ∈ t) ∧
        Eff.vlobDelete fid ∈ t ∧
        t.drop (t.length - 2) =
          [Eff.vlobRead fid (some 1),
            Eff.vlobUpdate fid ((FileHandle.mk 3 3 3 2 2 false []).version + 1) blob]) := by
  have hlookup : c3sys.files.lookup fid = some (FileHandle.mk 3 3 3 2 2 false []) := by
    rw [c3sys_eq]
    rfl
  have hok : (restoreVersionM fid (some 1) c3sys).1 = Except.ok () := by
    rw [c3sys_eq, restore_c3litD_eq]
  refine ⟨hlookup, rfl, by decide, by decide, hok, ?_⟩
  exact restore_discards_and_updates c3sys fid (FileHandle.mk 3 3 3 2 2 false [])
    1 (restoreVersionM fid (some 1) c3sys).1 (restoreVersionM fid (some 1) c3sys).2
    hlookup rfl (by decide) (by decide)
    (@Prod.mk.eta _ _ (restoreVersionM fid (some 1) c3sys)).symm hok

theorem range'_shift (m : Nat) : ∀ s : Nat,
    List.range' s m 4096 = (List.range' 0 m 4096).map (fun i => s + i) := by
  induction m with
  | zero => intro s; rfl
  | succ n ih =>
    intro s
    rw [List.range'_succ, List.range'_succ, List.map_cons, ih (s + 4096), ih 4096,
      List.map_map]
    simp [Function.comp_def, Nat.add_assoc]

theorem chunksOf_nil : chunksOf [] = [] := rfl

theorem chunksOf_cons (d : Bytes) (hd : d ≠ []) :
    chunksOf d = d.take 4096 :: chunksOf (d.drop 4096) := by
  have hlen : 1 ≤ d.length := List.length_pos.mpr hd
  by_cases hbig : d.length ≤ 4096
  · have h1 : (d.length + 4095) / 4096 = 1 :=
      Nat.div_eq_of_lt_le (by omega) (by omega)
    have h2 : d.drop 4096 = [] := List.drop_eq_nil_of_le (by omega)
    unfold chunksOf
    rw [h1, h2]
    simp [List.range'_succ]
  · push_neg at hbig
    have h1 : (d.length + 4095) / 4096 = ((d.length - 4096) + 4095) / 4096 + 1 := by
      have he : d.length + 4095 = ((d.length - 4096) + 4095) + 4096 := by omega
      rw [he, Nat.add_div_right _ (by norm_num)]
    have hdl : (d.drop 4096).length = d.length - 4096 := by simp
    unfold chunksOf
    rw [h1, hdl, List.range'_succ, List.map_cons]
    congr 1
    rw [Nat.zero_add, range'_shift _ 4096, List.map_map]
    refine List.map_congr_left ?_
    intro i hi
    simp [Function.comp_def, List.drop_drop, Nat.add_comm]

theorem chunksOf_facts : ∀ (n : Nat) (d : Bytes), d.length ≤ n →
    (chunksOf d).flatten = d ∧
    (∀ c ∈ chunksOf d, c.length ≤ 4096) ∧
    (∀ c ∈ (chunksOf d).dropLast, c.length = 4096) := by
  intro n
  induction n with
  | zero =>
    intro d hd
    have : d = [] := List.eq_nil_of_length_eq_zero (by omega)
    subst this
    simp [chunksOf_nil]
  | succ n ih =>
    intro d hd
    by_cases hnil : d = []
    · subst hnil
      simp [chunksOf_nil]
    · rw [chunksOf_cons d hnil]
      have hdrop : (d.drop 4096).length ≤ n := by
        have h1 : 1 ≤ d.length := List.length_pos.mpr hnil
        simp only [List.length_drop]
        omega
      obtain ⟨hj, hle, hlast⟩ := ih (d.drop 4096) hdrop
      refine ⟨by simp [hj], ?_, ?_⟩
      · intro c hc
        rcases List.mem_cons.mp hc with hc1 | hc2
        · subst hc1
          simp
        · exact hle c hc2
      · intro c hc
        by_cases hdn : chunksOf (d.drop 4096) = []
        · rw [hdn] at hc
          simp at hc
        · rw [List.dropLast_cons_of_ne_nil hdn] at hc
          rcases List.mem_cons.mp hc with hc1 | hc2
          · subst hc1
            have hlong : 4096 < d.length := by
              by_contra hcon
              push_neg at hcon
              exact hdn (by
                have : d.drop 4096 = [] := List.drop_eq_nil_of_le hcon
                rw [this, chunksOf_nil])
            simp only [List.length_take]
            omega
          · exact hlast c hc2

theorem paddedChunks_facts (d : Bytes) :
    (paddedChunks d).flatten = d ∧
    (d = [] → paddedChunks d = [[]]) ∧
    (∀ c ∈ paddedChunks d, c.length ≤ 4096) ∧
    (∀ c ∈ (paddedChunks d).dropLast, c.length = 4096) := by
  obtain ⟨hj, hle, hlast⟩ := chunksOf_facts d.length d (le_refl _)
  unfold paddedChunks
  by_cases hn : chunksOf d = []
  · have hdnil : d = [] := by
      rw [hn] at hj
      simpa using hj.symm
    rw [if_pos hn]
    subst hdnil
    simp
  · rw [if_neg hn]
    refine ⟨hj, ?_, hle, hlast⟩
    intro hdnil
    subst hdnil
    exact absurd chunksOf_nil hn

theorem genKeyM_apply (s : Sys) : genKeyM s =
    (Except.ok s.backend.nextId,
      { s with backend := { s.backend with nextId := s.backend.nextId + 1 } }) := rfl

theorem buildFold_metas (cs : List Bytes) :
    ∀ (acc : List BlockMeta) (s : Sys),
      ∃ metas s1,
        mFold cs acc (fun acc chunk => do
          let bid ← blockCreateM chunk
          pure (acc ++ [BlockMeta.mk bid (digest chunk) chunk.length])) s =
          (Except.ok metas, s1) ∧
        metas.map (fun m => m.dgst) =
          acc.map (fun m => m.dgst) ++ cs.map digest ∧
        metas.map (fun m => m.size) =
          acc.map (fun m => m.size) ++ cs.map List.length := by
  induction cs with
  | nil =>
    intro acc s
    exact ⟨acc, s, rfl, by simp, by simp⟩
  | cons c cs ih =>
    intro acc s
    obtain ⟨metas, s1, heq, h1, h2⟩ := ih
      (acc ++ [BlockMeta.mk s.backend.nextId (digest c) c.length])
      ((blockCreateM c s).2)
    refine ⟨metas, s1, ?_, ?_, ?_⟩
    · show (mFold (c :: cs) acc _) s = (Except.ok metas, s1)
      have hstep : (mFold (c :: cs) acc (fun acc chunk => do
          let bid ← blockCreateM chunk
          pure (acc ++ [BlockMeta.mk bid (digest chunk) chunk.length]))) s =
          (mFold cs (acc ++ [BlockMeta.mk s.backend.nextId (digest c) c.length])
            (fun acc chunk => do
              let bid ← blockCreateM chunk
              pure (acc ++ [BlockMeta.mk bid (digest chunk) chunk.length])))
            ((blockCreateM c s).2) := rfl
      rw [hstep, heq]
    · rw [h1]
      simp
    · rw [h2]
      simp

/-- C4: `_build_file_blocks` slices the cleartext at 4096-byte boundaries
into one block per chunk (chunks concatenate back to the data, all are
at most 4096 bytes and all but the last exactly 4096), forces one empty
chunk for empty content, and every emitted `BlockMeta` carries the
digest of its cleartext chunk and the chunk length as its size. -/
theorem build_file_blocks_chunking (selfId : Option Nat) (data : Bytes) (s : Sys)
    (g : BlockGroup) (s1 : Sys)
    (hrun : buildFileBlocksM selfId data s = (Except.ok g, s1)) :
    g.blocks.map (fun m => m.dgst) = (paddedChunks data).map digest ∧
    g.blocks.map (fun m => m.size) = (paddedChunks data).map List.length ∧
    (paddedChunks data).flatten = data ∧
    (data = [] → paddedChunks data = [[]]) ∧
    (∀ c ∈ paddedChunks data, c.length ≤ 4096) ∧
    (∀ c ∈ (paddedChunks data).dropLast, c.length = 4096) := by
  obtain ⟨hj, hnil, hle, hlast⟩ := paddedChunks_facts data
  obtain ⟨metas, s2, heq, hd, hsz⟩ := buildFold_metas (paddedChunks data) []
    ((genKeyM s).2)
  have hkey : ((genKeyM s).1) = Except.ok s.backend.nextId := rfl
  unfold buildFileBlocksM at hrun
  simp only [genKeyM_apply, mBind_apply] at hrun
  rw [show ({ s with backend := { s.backend with
        nextId := s.backend.nextId + 1 } } : Sys) = (genKeyM s).2 from rfl,
    heq] at hrun
  have hblocks : g.blocks = metas := by
    cases selfId with
    | none =>
      simp only [mBind_apply, mPure_apply] at hrun
      have := congrArg Prod.fst hrun
      simp only at this
      cases this
      rfl
    | some i =>
      simp only [mBind_apply, mPure_apply] at hrun
      rcases hg : getHandle i s2 with ⟨rg, sg⟩
      rw [hg] at hrun
      cases rg with
      | error e =>
        exact absurd (congrArg Prod.fst hrun) (by simp)
      | ok hnd =>
        simp only [setHandle_apply, mBind_apply, mPure_apply] at hrun
        have := congrArg Prod.fst hrun
        simp only at this
        cases this
        rfl
  rw [hblocks]
  exact ⟨hd.trans (by simp), hsz.trans (by simp), hj, hnil, hle, hlast⟩

/-- Witness for the chunking claim: building the blocks of a two-byte
cleartext from the initial state yields one block with the digest and
size of the data. -/
theorem build_file_blocks_chunking_witness :
    buildFileBlocksM none [5, 6] sysInit =
      (Except.ok (BlockGroup.mk [BlockMeta.mk 1 [5, 6] 2] 0),
        (buildFileBlocksM none [5, 6] sysInit).2) ∧
    ((BlockGroup.mk [BlockMeta.mk 1 [5, 6] 2] 0).blocks.map (fun m => m.dgst) =
        (paddedChunks [5, 6]).map digest ∧
      (BlockGroup.mk [BlockMeta.mk 1 [5, 6] 2] 0).blocks.map (fun m => m.size) =
        (paddedChunks [5, 6]).map List.length ∧
      (paddedChunks [5, 6]).flatten = [5, 6] ∧
      (([5, 6] : Bytes) = [] → paddedChunks [5, 6] = [[]]) ∧
      (∀ c ∈ paddedChunks [5, 6], c.length ≤ 4096) ∧
      (∀ c ∈ (paddedChunks [5, 6]).dropLast, c.length = 4096)) := by
  have h1 : (buildFileBlocksM none [5, 6] sysInit).1 =
      Except.ok (BlockGroup.mk [BlockMeta.mk 1 [5, 6] 2] 0) := rfl
  have hrun : buildFileBlocksM none [5, 6] sysInit =
      (Except.ok (BlockGroup.mk [BlockMeta.mk 1 [5, 6] 2] 0),
        (buildFileBlocksM none [5, 6] sysInit).2) := by
    rw [← h1]
  exact ⟨hrun, build_file_blocks_chunking none [5, 6] sysInit _ _ hrun⟩
